import Mathlib

/-!
# Drum trainer: session lifecycle of `src/main.cpp`

A shallow embedding of the firmware's session logic.  The sketch keeps its
state in global variables; here they are the fields of `State`, and every
function of the sketch becomes a function on `State`.

Modelling conventions.

* C `int` values are `Int`.  Integer division is C's truncating division
  (`Int.tdiv`); a division by zero is undefined behaviour and makes the
  embedded function return `none`.  An out-of-bounds read of the `levels`
  array is undefined behaviour as well and also yields `none`.  The counters
  are not wrapped at 32 bits: they are reset at every session start and grow
  by at most two per beat.
* `unsigned long` clock values are `Nat` readings of `millis()`; differences
  are taken modulo `2^32`, and an `int` compared with such a difference is
  first converted to `unsigned long` (reduced modulo `2^32`).
* `float` values are the rationals they denote; the outcome of a
  floating-point division is a `FloatVal`, which adds the IEEE special values
  a division by zero produces.  The quotient in `endSession` is rounded as
  the code rounds it: to the nearest `double` (53 significant bits, ties to
  even) and from there to the nearest `float` (24 bits).  With 32-bit integer
  operands it stays within the normal range of both formats, so neither
  overflow nor subnormal numbers are modelled.
* `webSocket.broadcastTXT` appends an `Event` to the field `sent`.  Serial
  logging, LED writes and the blocking `delay` calls have no effect on the
  session state and are left out.
-/

namespace DrumTrainer

/-! ## Data model -/

/-- Catalog entry, `struct RhythmLevel`. -/
structure RhythmLevel where
  beatsPerMeasure : Int
  name : String
deriving DecidableEq, Repr

/-- The catalog, `RhythmLevel levels[]`. -/
def levels : List RhythmLevel :=
  [⟨4, "4/4"⟩, ⟨3, "3/4"⟩, ⟨6, "7/4"⟩]

/-- Measures per session, `const int NUM_CYCLES`. -/
def NUM_CYCLES : Int := 5

/-- Global `cueDuration`; it is initialised to 200 and never assigned. -/
def cueDuration : Int := 200

/-- Kick sensitivity, `const int THRESHOLD`. -/
def THRESHOLD : Int := 100

/-- Array read `levels[i]` with a C `int` index; `none` outside the array. -/
def levelAt (i : Int) : Option RhythmLevel :=
  if 0 ≤ i then levels.get? i.toNat else none

/-- Result of a floating-point division. -/
inductive FloatVal where
  | nan
  | posInf
  | negInf
  | fin (q : ℚ)
deriving DecidableEq, Repr

/-- Power of two with an integer exponent. -/
def pow2 (e : Int) : ℚ :=
  if 0 ≤ e then ((2 ^ e.toNat : Nat) : ℚ) else 1 / ((2 ^ (-e).toNat : Nat) : ℚ)

/-- Number of halvings that bring `n` below 2, with the recursion bounded by
the first argument. -/
def log2Fuel : Nat → Nat → Nat
  | 0, _ => 0
  | fuel + 1, n => if 2 ≤ n then log2Fuel fuel (n / 2) + 1 else 0

/-- Position of the leading bit of `n`. -/
def natLog2 (n : Nat) : Nat :=
  log2Fuel n n

/-- Binary exponent of a positive rational: the largest `e` with
`2 ^ e ≤ q`. -/
def floorLog2 (q : ℚ) : Int :=
  let a : Int := (natLog2 q.num.natAbs : Int) - (natLog2 q.den : Int)
  if pow2 a ≤ q then a else a - 1

/-- Nearest integer, a tie going to the even neighbour. -/
def roundHalfEven (x : ℚ) : Int :=
  let f : Int := ⌊x⌋
  let r : ℚ := x - (f : ℚ)
  if r < 1 / 2 then f
  else if 1 / 2 < r then f + 1
  else if f % 2 = 0 then f else f + 1

/-- Rounding to the nearest binary floating-point number with `p` significant
bits, ties to even (the IEEE default), exponent range unbounded. -/
def roundBinary (p : Nat) (q : ℚ) : ℚ :=
  if q = 0 then 0
  else
    let a : ℚ := if q < 0 then -q else q
    let e : Int := floorLog2 a - (p : Int) + 1
    let m : ℚ := (roundHalfEven (a / pow2 e) : ℚ) * pow2 e
    if q < 0 then -m else m

/-- The `float` that receives the `double` quotient of the integers `x` and
`d`, `d` not zero: the quotient is rounded to `double` and then narrowed to
`float`.  In `endSession` the numerator is `hitCount * 100.0`, a product that
is exact in `double` for every 32-bit `hitCount`. -/
def floatQuotient (x d : Int) : ℚ :=
  roundBinary 24 (roundBinary 53 ((x : ℚ) / (d : ℚ)))

/-- Floating-point quotient `x / d` of an integer-valued numerator by an
integer converted to floating point, stored in a `float`: IEEE special
values for `d = 0`, the rounded quotient otherwise. -/
def FloatVal.div (x : Int) (d : Int) : FloatVal :=
  if d = 0 then
    if x = 0 then FloatVal.nan
    else if 0 < x then FloatVal.posInf
    else FloatVal.negInf
  else FloatVal.fin (floatQuotient x d)

/-- Comparison `a >= t` against a finite value; false on NaN. -/
def FloatVal.ge (a : FloatVal) (t : ℚ) : Bool :=
  match a with
  | FloatVal.nan => false
  | FloatVal.posInf => true
  | FloatVal.negInf => false
  | FloatVal.fin q => decide (t ≤ q)

/-- Session state, `enum SessionState`. -/
inductive SessionState where
  | WAITING_FOR_CONFIG
  | READY_TO_START
  | IN_PROGRESS
deriving DecidableEq, Repr

/-- Texts handed to `webSocket.broadcastTXT`. -/
inductive Event where
  | start (name : String) (bpm beatsPerMeasure totalBeats : Int) (targetAccuracy : ℚ)
  | beat (ordinal total : Int)
  | kick
  | snare
  | hit
  | miss
  | endSummary (hits total : Int) (accuracy : FloatVal)
  | levelUp
  | retry
deriving DecidableEq, Repr

/-- The global variables of the sketch, plus the log of broadcasts. -/
structure State where
  bpm : Int
  beatInterval : Int
  selectedLevel : RhythmLevel
  targetAccuracy : ℚ
  sessionState : SessionState
  currentBeat : Int
  totalBeats : Int
  hitCount : Int
  cueActive : Bool
  kickTapped : Bool
  snareTapped : Bool
  lastBeatTime : Nat
  cueStartTime : Nat
  currentLevelIndex : Int
  sent : List Event
deriving DecidableEq, Repr

/-- Values of the globals after static initialisation. -/
def initState : State where
  bpm := 120
  beatInterval := Int.tdiv 60000 120
  selectedLevel := ⟨4, "4/4"⟩
  targetAccuracy := 85
  sessionState := SessionState.WAITING_FOR_CONFIG
  currentBeat := 0
  totalBeats := 0
  hitCount := 0
  cueActive := false
  kickTapped := false
  snareTapped := false
  lastBeatTime := 0
  cueStartTime := 0
  currentLevelIndex := 0
  sent := []

/-- Parsed JSON document: the four keys the handler looks at. -/
structure Msg where
  command : Option String
  bpm : Option Int
  rhythm : Option String
  accuracy : Option ℚ
deriving DecidableEq, Repr

/-- Event delivered to the WebSocket callback: a non-text event, or a text
frame whose payload either parses (`some doc`) or does not (`none`). -/
inductive WsEvent where
  | other
  | text (payload : Option Msg)
deriving DecidableEq, Repr

/-! ## Clock arithmetic -/

/-- Difference `now - since` of two `unsigned long` values. -/
def elapsed (now since : Nat) : Int :=
  ((now : Int) - (since : Int)) % 4294967296

/-- Conversion of an `int` to `unsigned long`. -/
def toUnsigned (i : Int) : Int :=
  i % 4294967296

/-! ## Operations -/

/-- Body of `endSession`. -/
def endSession (s : State) : Option State :=
  let s1 := { s with cueActive := false }
  let accuracy := FloatVal.div (s1.hitCount * 100) s1.totalBeats
  let s2 := { s1 with
    sent := s1.sent ++ [Event.endSummary s1.hitCount s1.totalBeats accuracy] }
  if accuracy.ge s2.targetAccuracy ∧ s2.currentLevelIndex < (levels.length : Int) - 1 then
    match levelAt (s2.currentLevelIndex + 1) with
    | none => none
    | some l =>
      some { s2 with
        currentLevelIndex := s2.currentLevelIndex + 1
        selectedLevel := l
        sent := s2.sent ++ [Event.levelUp]
        sessionState := SessionState.WAITING_FOR_CONFIG }
  else
    some { s2 with
      sent := s2.sent ++ [Event.retry]
      sessionState := SessionState.WAITING_FOR_CONFIG }

/-- The search loop of the handler: first catalog entry, from index `i` on,
whose name equals `rhythmStr`. -/
def findLevel (rhythmStr : String) : List RhythmLevel → Int → Option (Int × RhythmLevel)
  | [], _ => none
  | l :: rest, i =>
    if l.name = rhythmStr then some (i, l) else findLevel rhythmStr rest (i + 1)

/-- Body of `handleWebSocketEvent`. -/
def handleWebSocketEvent (s : State) : WsEvent → Option State
  | WsEvent.other => some s
  | WsEvent.text none => some s
  | WsEvent.text (some doc) =>
    if doc.command = some "endSession" then endSession s
    else
      let rhythmStr := doc.rhythm.getD s.selectedLevel.name
      let s1 : State := { s with
        bpm := doc.bpm.getD s.bpm
        targetAccuracy := doc.accuracy.getD s.targetAccuracy }
      let s2 : State :=
        match findLevel rhythmStr levels 0 with
        | some (i, l) => { s1 with selectedLevel := l, currentLevelIndex := i }
        | none => s1
      if s2.bpm = 0 then none
      else
        some { s2 with
          beatInterval := Int.tdiv 60000 s2.bpm
          sessionState := SessionState.READY_TO_START }

/-- Body of `startSession`; `clock` is the value `millis()` returns in it. -/
def startSession (s : State) (clock : Nat) : Option State :=
  let s1 := { s with
    currentBeat := 0
    hitCount := 0
    totalBeats := s.selectedLevel.beatsPerMeasure * NUM_CYCLES }
  if s1.bpm = 0 then none
  else
    let s2 := { s1 with
      beatInterval := Int.tdiv 60000 s1.bpm
      cueActive := false
      lastBeatTime := clock }
    some { s2 with
      sent := s2.sent ++ [Event.start s2.selectedLevel.name s2.bpm
        s2.selectedLevel.beatsPerMeasure s2.totalBeats s2.targetAccuracy]
      sessionState := SessionState.IN_PROGRESS }

/-- First `if` of `handleBeatCue`: open a cue window. -/
def openCue (s : State) (now : Nat) : Option State :=
  if s.cueActive = false ∧ toUnsigned s.beatInterval ≤ elapsed now s.lastBeatTime then
    let s1 := { s with
      cueActive := true
      cueStartTime := now
      lastBeatTime := now
      kickTapped := false
      snareTapped := false
      currentBeat := s.currentBeat + 1 }
    let s2 := { s1 with sent := s1.sent ++ [Event.beat s1.currentBeat s1.totalBeats] }
    if s2.totalBeats ≤ s2.currentBeat then endSession s2 else some s2
  else some s

/-- Second `if` of `handleBeatCue`: close the cue window. -/
def closeCue (s : State) (now : Nat) : State :=
  if s.cueActive = true ∧ toUnsigned cueDuration ≤ elapsed now s.cueStartTime then
    let s1 := { s with cueActive := false }
    if s1.kickTapped = false ∧ s1.snareTapped = false then
      { s1 with sent := s1.sent ++ [Event.miss] }
    else s1
  else s

/-- Body of `handleBeatCue`. -/
def handleBeatCue (s : State) (now : Nat) : Option State :=
  (openCue s now).map (fun s1 => closeCue s1 now)

/-- First `if` of `detectTaps`: the kick channel, `kick` being the analog
reading. -/
def kickTap (s : State) (kick : Int) : State :=
  if THRESHOLD < kick ∧ s.kickTapped = false then
    let a := { s with kickTapped := true, sent := s.sent ++ [Event.kick] }
    if a.cueActive = true then
      { a with hitCount := a.hitCount + 1, sent := a.sent ++ [Event.hit] }
    else a
  else s

/-- Second `if` of `detectTaps`: the snare channel, `snare` telling whether
the digital reading is `HIGH`. -/
def snareTap (s : State) (snare : Bool) : State :=
  if snare = true ∧ s.snareTapped = false then
    let b := { s with snareTapped := true, sent := s.sent ++ [Event.snare] }
    if b.cueActive = true then
      { b with hitCount := b.hitCount + 1, sent := b.sent ++ [Event.hit] }
    else b
  else s

/-- Body of `detectTaps`: both sensors are read, then the two channels are
handled one after the other. -/
def detectTaps (s : State) (kick : Int) (snare : Bool) : State :=
  snareTap (kickTap s kick) snare

/-- What `webSocket.loop()` does to the session: the pending events are
handed to the callback one after the other. -/
def drain (s : State) : List WsEvent → Option State
  | [] => some s
  | e :: es => (handleWebSocketEvent s e).bind (fun s1 => drain s1 es)

/-- Rest of `loop` once `webSocket.loop()` has returned: `now` is the clock
value read at the top, `clock` the one `startSession` reads. -/
def loopBody (s : State) (now clock : Nat) (kick : Int) (snare : Bool) : Option State :=
  (if s.sessionState = SessionState.READY_TO_START then startSession s clock
   else some s).bind (fun s1 =>
    if s1.sessionState = SessionState.IN_PROGRESS then
      (handleBeatCue s1 now).map (fun s2 => detectTaps s2 kick snare)
    else some s1)

/-- Body of `loop`: one pass of the control loop. -/
def loop (s : State) (frames : List WsEvent) (now clock : Nat) (kick : Int)
    (snare : Bool) : Option State :=
  (drain s frames).bind (fun s1 => loopBody s1 now clock kick snare)

/-- States the firmware can be in: the initial state, and every state a
callback invocation or a loop pass produces from such a state. -/
inductive Reachable : State → Prop where
  | init : Reachable initState
  | message (s : State) (e : WsEvent) (s1 : State) :
      Reachable s → handleWebSocketEvent s e = some s1 → Reachable s1
  | pass (s : State) (now clock : Nat) (kick : Int) (snare : Bool) (s1 : State) :
      Reachable s → loopBody s now clock kick snare = some s1 → Reachable s1

/-! ## Runs, observations and invariants -/

/-- Clock and sensor readings of one loop pass. -/
structure PassInput where
  now : Nat
  clock : Nat
  kick : Int
  snare : Bool
deriving DecidableEq, Repr

/-- Successive loop passes during which no message arrives. -/
def runPasses (s : State) : List PassInput → Option State
  | [] => some s
  | p :: ps => (loop s [] p.now p.clock p.kick p.snare).bind (fun s1 => runPasses s1 ps)

/-- Ordinal and total of the `beat` events of a broadcast log, in order. -/
def beatsOf (evs : List Event) : List (Int × Int) :=
  evs.filterMap (fun e =>
    match e with
    | Event.beat k t => some (k, t)
    | _ => none)

/-- The beat events `beat:1/T`, ..., `beat:n/T`. -/
def firstBeats (n : Nat) (T : Int) : List (Int × Int) :=
  (List.range n).map (fun k => ((k : Int) + 1, T))

/-- Configuration invariant of the reachable states: the tempo is not zero,
`beatInterval` is the truncated quotient, and `selectedLevel` is the catalog
entry at `currentLevelIndex`. -/
def ConfigInv (s : State) : Prop :=
  s.bpm ≠ 0 ∧ s.beatInterval = Int.tdiv 60000 s.bpm ∧
    0 ≤ s.currentLevelIndex ∧ levelAt s.currentLevelIndex = some s.selectedLevel

/-- Progress of a session of `T` beats of which `n` have been cued: either
it is in progress with `currentBeat = n < T`, or it is over and `n = T`. -/
def SessionInv (T : Int) (s : State) (n : Nat) : Prop :=
  s.totalBeats = T ∧ 0 ≤ s.currentLevelIndex ∧
    ((s.sessionState = SessionState.IN_PROGRESS ∧ s.currentBeat = (n : Int) ∧ (n : Int) < T) ∨
      (s.sessionState = SessionState.WAITING_FOR_CONFIG ∧ (n : Int) = T))

/-- Hits the open cue window can still take: one per channel whose latch is
clear, none when no window is open. -/
def windowCredit (s : State) : Int :=
  if s.cueActive = true then
    (if s.kickTapped = true then 0 else 1) + (if s.snareTapped = true then 0 else 1)
  else 0

/-- Tally invariant of the reachable states. -/
def TallyInv (s : State) : Prop :=
  0 ≤ s.hitCount ∧ s.hitCount + windowCredit s ≤ 2 * s.currentBeat ∧
    0 ≤ s.currentBeat ∧ s.currentBeat ≤ s.totalBeats ∧
    (s.sessionState = SessionState.IN_PROGRESS → s.currentBeat < s.totalBeats)

/-- Detections the kick channel can still make before its latch is cleared. -/
def kickCredit (s : State) : Nat :=
  if s.kickTapped = true then 0 else 1

/-- Detections the snare channel can still make before its latch is cleared. -/
def snareCredit (s : State) : Nat :=
  if s.snareTapped = true then 0 else 1

/-- Stretch of execution from `s` to `t` that broadcasts `evs` and opens no
cue window: each raw event uses up the credit of its channel, and `hitCount`
grows by the number of `hit` events, each of which goes with a raw event. -/
def LatchStep (s t : State) (evs : List Event) : Prop :=
  t.sent = s.sent ++ evs ∧ beatsOf evs = [] ∧
    evs.count Event.kick + kickCredit t ≤ kickCredit s ∧
    evs.count Event.snare + snareCredit t ≤ snareCredit s ∧
    t.hitCount = s.hitCount + (evs.count Event.hit : Int) ∧
    evs.count Event.hit ≤ evs.count Event.kick + evs.count Event.snare ∧
    t.sessionState = s.sessionState ∧ t.currentLevelIndex = s.currentLevelIndex

/-- Whether `handleBeatCue`, run at time `now` in a loop pass that finds the
state `s`, cues a beat. -/
def cuesBeat (s : State) (now : Nat) : Bool :=
  decide (s.sessionState = SessionState.IN_PROGRESS ∧ s.cueActive = false ∧
    toUnsigned s.beatInterval ≤ elapsed now s.lastBeatTime)

/-- The readings of a drummer who strikes the kick exactly in the passes
that cue a beat and never touches the snare. -/
def struckOnCue (s : State) : List PassInput → Bool
  | [] => true
  | p :: ps =>
    decide (THRESHOLD < p.kick ↔ cuesBeat s p.now = true) && !p.snare &&
      (match loop s [] p.now p.clock p.kick p.snare with
        | some s1 => struckOnCue s1 ps
        | none => true)

/-- Hits, total and accuracy of the end summaries of a broadcast log. -/
def summariesOf (evs : List Event) : List (Int × Int × FloatVal) :=
  evs.filterMap (fun e =>
    match e with
    | Event.endSummary h t a => some (h, t, a)
    | _ => none)

/-- The progression events `levelUp` and `retry` of a broadcast log. -/
def outcomesOf (evs : List Event) : List Event :=
  evs.filter (fun e => decide (e = Event.levelUp ∨ e = Event.retry))

/-- Stretch of execution that broadcasts neither an end summary nor a
progression event and leaves configuration, selection, session state and
beat counter alone. -/
def QuietStep (s t : State) (evs : List Event) : Prop :=
  t.sent = s.sent ++ evs ∧ summariesOf evs = [] ∧ outcomesOf evs = [] ∧
    t.totalBeats = s.totalBeats ∧ t.targetAccuracy = s.targetAccuracy ∧
    t.sessionState = s.sessionState ∧ t.currentLevelIndex = s.currentLevelIndex ∧
    t.selectedLevel = s.selectedLevel ∧ t.currentBeat = s.currentBeat

/-- What a session of `T` beats, started on catalog entry `l0` at index `i0`
with target `tgt`, has broadcast and selected once the scheduler has ended
it, when every beat but the last was scored once. -/
def Finished (T : Int) (tgt : ℚ) (i0 : Int) (l0 : RhythmLevel) (s : State)
    (evs : List Event) : Prop :=
  summariesOf evs = [(T - 1, T, FloatVal.div ((T - 1) * 100) T)] ∧
    ((FloatVal.div ((T - 1) * 100) T).ge tgt = true ∧ i0 < 2 →
      outcomesOf evs = [Event.levelUp] ∧ s.currentLevelIndex = i0 + 1 ∧
      levelAt (i0 + 1) = some s.selectedLevel) ∧
    (¬ ((FloatVal.div ((T - 1) * 100) T).ge tgt = true ∧ i0 < 2) →
      outcomesOf evs = [Event.retry] ∧ s.currentLevelIndex = i0 ∧ s.selectedLevel = l0)

/-- Invariant of a session in which the kick is struck on every cue. -/
def StruckInv (T : Int) (tgt : ℚ) (i0 : Int) (l0 : RhythmLevel) (s : State)
    (evs : List Event) : Prop :=
  s.totalBeats = T ∧ s.targetAccuracy = tgt ∧
    ((s.sessionState = SessionState.IN_PROGRESS ∧ s.hitCount = s.currentBeat ∧
        s.currentBeat < T ∧ s.currentLevelIndex = i0 ∧ s.selectedLevel = l0 ∧
        summariesOf evs = [] ∧ outcomesOf evs = []) ∨
      (s.sessionState = SessionState.WAITING_FOR_CONFIG ∧ Finished T tgt i0 l0 s evs))

/-! ## Concrete states and messages used in the examples -/

/-- A finished tally on the first catalog entry with the default settings. -/
def demoState (hits total : Int) : State :=
  { initState with hitCount := hits, totalBeats := total, currentBeat := total }

/-- A session of 15 beats on the second variant with 14 hits, the target
accuracy being the `float` 93.333335, that is 12233387/131072. -/
def roundedUp : State :=
  { initState with
    selectedLevel := ⟨3, "3/4"⟩
    currentLevelIndex := 1
    targetAccuracy := 12233387 / 131072
    sessionState := SessionState.IN_PROGRESS
    currentBeat := 14
    totalBeats := 15
    hitCount := 14
    sent := [Event.start "3/4" 120 3 15 (12233387 / 131072)] }

/-- A session in progress: third beat cued, two hits so far. -/
def midSession : State :=
  { initState with
    sessionState := SessionState.IN_PROGRESS
    totalBeats := 20
    currentBeat := 3
    hitCount := 2
    lastBeatTime := 1500
    cueStartTime := 1500 }

/-- Configuration message that only carries a tempo. -/
def bpmOnly (b : Int) : Msg :=
  ⟨none, some b, none, none⟩

/-- The `endSession` command. -/
def endCommand : Msg :=
  ⟨some "endSession", none, none, none⟩

/-- Configuration message that only carries a rhythm name. -/
def rhythmOnly (r : String) : Msg :=
  ⟨none, none, some r, none⟩

/-- A configured controller with the second catalog entry selected. -/
def waltzReady : State :=
  { initState with
    selectedLevel := ⟨3, "3/4"⟩
    currentLevelIndex := 1
    sessionState := SessionState.READY_TO_START }

/-- The state `startSession` leaves when run in `waltzReady` at clock 0. -/
def waltzStart : State :=
  { waltzReady with
    totalBeats := 15
    sent := [Event.start "3/4" 120 3 15 85]
    sessionState := SessionState.IN_PROGRESS }

/-- Loop passes at 250 ms, 500 ms, 750 ms, ... with silent sensors. -/
def steadyPasses (count : Nat) : List PassInput :=
  (List.range count).map (fun k => ⟨250 * (k + 1), 0, 0, false⟩)

/-- A finished session without a single hit, the target accuracy set to 0. -/
def zeroTarget : State :=
  { demoState 0 20 with targetAccuracy := 0 }

/-- A configured controller whose kick latch is still set from the strike
on the last beat of the previous session. -/
def staleLatch : State :=
  { initState with
    kickTapped := true
    currentBeat := 20
    totalBeats := 20
    hitCount := 19
    sessionState := SessionState.READY_TO_START }

/-- A session in progress whose third cue window was opened at 1500 ms and
has not been answered. -/
def openWindow : State :=
  { midSession with cueActive := true }

/-- The selection after the message `rhythm = 7/4` in the initial state. -/
def lastSelected : State :=
  { initState with
    selectedLevel := ⟨6, "7/4"⟩
    currentLevelIndex := 2
    sessionState := SessionState.READY_TO_START }

/-- The state after the pass that starts a session on the third variant,
both clock readings being 1000. -/
def afterStart : State :=
  { lastSelected with
    totalBeats := 30
    lastBeatTime := 1000
    sent := [Event.start "7/4" 120 6 30 85]
    sessionState := SessionState.IN_PROGRESS }

/-- Passes 10 ms apart within the window `openWindow`, the kick held down
throughout and the snare struck in the second pass. -/
def heldKick : List PassInput :=
  [⟨1510, 0, 900, false⟩, ⟨1520, 0, 900, true⟩, ⟨1530, 0, 900, true⟩, ⟨1540, 0, 900, false⟩]

/-- Thirty passes 250 ms apart, the kick struck in every second one. -/
def cuePasses : List PassInput :=
  (List.range 30).map (fun k => ⟨250 * (k + 1), 0, if k % 2 = 1 then 900 else 0, false⟩)

/-- The session `waltzStart` with the target accuracy set to the `float`
93.333335, that is 12233387/131072. -/
def edgeStart : State :=
  { waltzStart with
    targetAccuracy := 12233387 / 131072
    sent := [Event.start "3/4" 120 3 15 (12233387 / 131072)] }

/-- The session `waltzStart` with the target accuracy set to 100. -/
def strictStart : State :=
  { waltzStart with
    targetAccuracy := 100
    sent := [Event.start "3/4" 120 3 15 100] }

/-! ## Lemmas on `endSession` -/

theorem levelAt_succ_some (i : Int) (h0 : 0 ≤ i) (h2 : i < 2) :
    ∃ l, levelAt (i + 1) = some l := by
  have h : i = 0 ∨ i = 1 := by omega
  rcases h with h | h <;> subst h <;> exact ⟨_, rfl⟩

theorem endSession_retry_eq (s : State)
    (h : ¬ ((FloatVal.div (s.hitCount * 100) s.totalBeats).ge s.targetAccuracy = true ∧
      s.currentLevelIndex < 2)) :
    endSession s = some { s with
      cueActive := false
      sent := s.sent ++ [Event.endSummary s.hitCount s.totalBeats
        (FloatVal.div (s.hitCount * 100) s.totalBeats), Event.retry]
      sessionState := SessionState.WAITING_FOR_CONFIG } := by
  have h1 : ¬ ((FloatVal.div (s.hitCount * 100) s.totalBeats).ge s.targetAccuracy = true ∧
      s.currentLevelIndex < ((levels.length : Nat) : Int) - 1) := by
    simpa [levels] using h
  simp only [endSession, if_neg h1, List.append_assoc, List.singleton_append]

theorem endSession_levelUp_eq (s : State) (l : RhythmLevel)
    (hge : (FloatVal.div (s.hitCount * 100) s.totalBeats).ge s.targetAccuracy = true)
    (hlt : s.currentLevelIndex < 2) (hl : levelAt (s.currentLevelIndex + 1) = some l) :
    endSession s = some { s with
      cueActive := false
      currentLevelIndex := s.currentLevelIndex + 1
      selectedLevel := l
      sent := s.sent ++ [Event.endSummary s.hitCount s.totalBeats
        (FloatVal.div (s.hitCount * 100) s.totalBeats), Event.levelUp]
      sessionState := SessionState.WAITING_FOR_CONFIG } := by
  have h1 : (FloatVal.div (s.hitCount * 100) s.totalBeats).ge s.targetAccuracy = true ∧
      s.currentLevelIndex < ((levels.length : Nat) : Int) - 1 := by
    refine ⟨hge, ?_⟩
    simpa [levels] using hlt
  simp only [endSession, if_pos h1, hl, List.append_assoc, List.singleton_append]

theorem div_pos_eq (x d : Int) (hd : 0 < d) :
    FloatVal.div x d = FloatVal.fin (floatQuotient x d) := by
  have hne : d ≠ 0 := by omega
  simp [FloatVal.div, hne]

theorem floatQuotient_zero (d : Int) : floatQuotient 0 d = 0 := by
  simp [floatQuotient, roundBinary]

/-- Values of the rounding checked against the binary formats: 0.1 as a
`double` and as a `float`, the ties at `2^24 + 1` and `2^24 + 3`, and the
accuracies of 18 and of 14 hits. -/
theorem roundBinary_values :
    roundBinary 53 (1 / 10) = 3602879701896397 / 36028797018963968 ∧
    roundBinary 24 (1 / 10) = 13421773 / 134217728 ∧
    roundBinary 24 16777217 = 16777216 ∧
    roundBinary 24 16777219 = 16777220 ∧
    roundBinary 24 (-16777219) = -16777220 ∧
    floatQuotient 1800 20 = 90 ∧
    floatQuotient 1400 15 = 12233387 / 131072 := by
  refine ⟨by decide!, by decide!, by decide!, by decide!, by decide!, by decide!, by decide!⟩

/-! ## C1: accuracy and progression -/

/-- C1, as stated, fails where the rounding matters: with 14 hits of 15 the
exact quotient 280/3 is below the target 12233387/131072 (the `float`
93.333335), so the claim gives `retry` with the selection unchanged; the
code's `float` accuracy is the quotient rounded up to that very target, and
`levelUp` is broadcast and the third variant selected. -/
theorem endSession_rounding_counterexample :
    0 < roundedUp.totalBeats ∧ roundedUp.currentLevelIndex = 1 ∧
    ((roundedUp.hitCount * 100 : Int) : ℚ) / (roundedUp.totalBeats : ℚ) <
      roundedUp.targetAccuracy ∧
    endSession roundedUp = some { roundedUp with
      cueActive := false
      currentLevelIndex := 2
      selectedLevel := ⟨6, "7/4"⟩
      sent := roundedUp.sent ++
        [Event.endSummary 14 15 (FloatVal.fin (12233387 / 131072)), Event.levelUp]
      sessionState := SessionState.WAITING_FOR_CONFIG } := by
  refine ⟨by decide, rfl, by decide!, by decide!⟩

/-- C1 amended: with `totalBeats > 0` and a valid catalog index, `endSession`
takes as accuracy the quotient `hitCount * 100 / totalBeats` rounded to a
`float` (`floatQuotient`); when that accuracy is at least `targetAccuracy`
and the selected variant is not the last one, the index grows by one, the
selected variant is the catalog entry at the new index and `levelUp` follows
the end summary; in every other case `retry` follows it and the selection is
unchanged.  The session state afterwards is `WAITING_FOR_CONFIG` either way. -/
theorem endSession_progression (s : State) (hT : 0 < s.totalBeats)
    (h0 : 0 ≤ s.currentLevelIndex) (h2 : s.currentLevelIndex ≤ 2) :
    ∃ s1, endSession s = some s1 ∧
      s1.sessionState = SessionState.WAITING_FOR_CONFIG ∧
      (s.targetAccuracy ≤ floatQuotient (s.hitCount * 100) s.totalBeats ∧
          s.currentLevelIndex ≠ 2 →
        s1.currentLevelIndex = s.currentLevelIndex + 1 ∧
        levelAt (s.currentLevelIndex + 1) = some s1.selectedLevel ∧
        s1.sent = s.sent ++ [Event.endSummary s.hitCount s.totalBeats
          (FloatVal.fin (floatQuotient (s.hitCount * 100) s.totalBeats)), Event.levelUp]) ∧
      (¬ (s.targetAccuracy ≤ floatQuotient (s.hitCount * 100) s.totalBeats ∧
          s.currentLevelIndex ≠ 2) →
        s1.currentLevelIndex = s.currentLevelIndex ∧
        s1.selectedLevel = s.selectedLevel ∧
        s1.sent = s.sent ++ [Event.endSummary s.hitCount s.totalBeats
          (FloatVal.fin (floatQuotient (s.hitCount * 100) s.totalBeats)), Event.retry]) := by
  have hd := div_pos_eq (s.hitCount * 100) s.totalBeats hT
  by_cases hc : s.targetAccuracy ≤ floatQuotient (s.hitCount * 100) s.totalBeats ∧
      s.currentLevelIndex ≠ 2
  · have hlt : s.currentLevelIndex < 2 := by omega
    obtain ⟨l, hl⟩ := levelAt_succ_some s.currentLevelIndex h0 hlt
    have hge : (FloatVal.div (s.hitCount * 100) s.totalBeats).ge s.targetAccuracy = true := by
      rw [hd]; simpa [FloatVal.ge] using hc.1
    rw [endSession_levelUp_eq s l hge hlt hl]
    refine ⟨_, rfl, rfl, fun _ => ⟨rfl, hl, ?_⟩, fun hn => absurd hc hn⟩
    simp only [hd]
  · have hn : ¬ ((FloatVal.div (s.hitCount * 100) s.totalBeats).ge s.targetAccuracy = true ∧
        s.currentLevelIndex < 2) := by
      rintro ⟨hge, hlt⟩
      apply hc
      refine ⟨?_, by omega⟩
      rw [hd] at hge
      simpa [FloatVal.ge] using hge
    rw [endSession_retry_eq s hn]
    refine ⟨_, rfl, rfl, fun hp => absurd hp hc, fun _ => ⟨rfl, rfl, ?_⟩⟩
    simp only [hd]

/-- C1 amended, the two examples of the claim, where the quotient is a
`float` already: 18 of 20 at target 85 on the first variant levels up to the
second variant, 15 of 20 gives `retry` and keeps the first. -/
theorem endSession_progression_witness :
    (∃ s1, endSession (demoState 18 20) = some s1 ∧
      s1.currentLevelIndex = 1 ∧ s1.selectedLevel = ⟨3, "3/4"⟩ ∧
      s1.sent = [Event.endSummary 18 20 (FloatVal.fin 90), Event.levelUp]) ∧
    (∃ s1, endSession (demoState 15 20) = some s1 ∧
      s1.currentLevelIndex = 0 ∧ s1.selectedLevel = ⟨4, "4/4"⟩ ∧
      s1.sent = [Event.endSummary 15 20 (FloatVal.fin 75), Event.retry]) := by
  have q18 : floatQuotient ((demoState 18 20).hitCount * 100) (demoState 18 20).totalBeats =
      90 := by decide!
  have q15 : floatQuotient ((demoState 15 20).hitCount * 100) (demoState 15 20).totalBeats =
      75 := by decide!
  constructor
  · obtain ⟨s1, he, _, hup, _⟩ :=
      endSession_progression (demoState 18 20) (by decide) (by decide) (by decide)
    have h := hup ⟨by decide!, by decide⟩
    rw [q18] at h
    exact ⟨s1, he, h.1, (Option.some.inj h.2.1).symm, h.2.2⟩
  · obtain ⟨s1, he, _, _, hre⟩ :=
      endSession_progression (demoState 15 20) (by decide) (by decide) (by decide)
    have h := hre (by
      rintro ⟨hle, _⟩
      exact absurd hle (by decide!))
    rw [q15] at h
    exact ⟨s1, he, h.1, h.2.1, h.2.2⟩

/-! ## Lemmas on the message handler -/

theorem handler_config_eq (s : State) (doc : Msg) (hc : doc.command ≠ some "endSession")
    (hb : doc.bpm.getD s.bpm ≠ 0) :
    handleWebSocketEvent s (WsEvent.text (some doc)) =
      some { (match findLevel (doc.rhythm.getD s.selectedLevel.name) levels 0 with
          | some (i, l) =>
            { s with
              bpm := doc.bpm.getD s.bpm
              targetAccuracy := doc.accuracy.getD s.targetAccuracy
              selectedLevel := l
              currentLevelIndex := i }
          | none =>
            { s with
              bpm := doc.bpm.getD s.bpm
              targetAccuracy := doc.accuracy.getD s.targetAccuracy }) with
        beatInterval := Int.tdiv 60000 (doc.bpm.getD s.bpm)
        sessionState := SessionState.READY_TO_START } := by
  simp only [handleWebSocketEvent, if_neg hc]
  cases hf : findLevel (doc.rhythm.getD s.selectedLevel.name) levels 0 with
  | none => simp [hb]
  | some p => obtain ⟨i, l⟩ := p; simp [hb]

/-- Fields the configuration branch of the handler sets or keeps, whatever
the catalog search finds. -/
theorem handler_config_fields (s : State) (doc : Msg) (hc : doc.command ≠ some "endSession")
    (hb : doc.bpm.getD s.bpm ≠ 0) :
    ∃ s1, handleWebSocketEvent s (WsEvent.text (some doc)) = some s1 ∧
      s1.bpm = doc.bpm.getD s.bpm ∧
      s1.targetAccuracy = doc.accuracy.getD s.targetAccuracy ∧
      s1.beatInterval = Int.tdiv 60000 (doc.bpm.getD s.bpm) ∧
      s1.sessionState = SessionState.READY_TO_START ∧
      s1.hitCount = s.hitCount ∧ s1.currentBeat = s.currentBeat ∧
      s1.totalBeats = s.totalBeats ∧ s1.sent = s.sent := by
  rw [handler_config_eq s doc hc hb]
  refine ⟨_, rfl, ?_⟩
  cases findLevel (doc.rhythm.getD s.selectedLevel.name) levels 0 with
  | none => exact ⟨rfl, rfl, rfl, rfl, rfl, rfl, rfl, rfl⟩
  | some p => exact ⟨rfl, rfl, rfl, rfl, rfl, rfl, rfl, rfl⟩

/-- A tempo of zero makes the handler divide by zero. -/
theorem handler_bpm_zero (s : State) (doc : Msg) (hc : doc.command ≠ some "endSession")
    (hb : doc.bpm.getD s.bpm = 0) :
    handleWebSocketEvent s (WsEvent.text (some doc)) = none := by
  simp only [handleWebSocketEvent, if_neg hc]
  cases hf : findLevel (doc.rhythm.getD s.selectedLevel.name) levels 0 with
  | none => simp [hb]
  | some p => obtain ⟨i, l⟩ := p; simp [hb]

/-! ## Lemmas on `startSession` and the loop -/

theorem startSession_eq (s : State) (clock : Nat) (hb : s.bpm ≠ 0) :
    startSession s clock = some { s with
      currentBeat := 0
      hitCount := 0
      totalBeats := s.selectedLevel.beatsPerMeasure * NUM_CYCLES
      beatInterval := Int.tdiv 60000 s.bpm
      cueActive := false
      lastBeatTime := clock
      sent := s.sent ++ [Event.start s.selectedLevel.name s.bpm
        s.selectedLevel.beatsPerMeasure (s.selectedLevel.beatsPerMeasure * NUM_CYCLES)
        s.targetAccuracy]
      sessionState := SessionState.IN_PROGRESS } := by
  simp [startSession, hb]

theorem loopBody_waiting (s : State) (now clock : Nat) (kick : Int) (snare : Bool)
    (h : s.sessionState = SessionState.WAITING_FOR_CONFIG) :
    loopBody s now clock kick snare = some s := by
  simp [loopBody, h]

theorem loopBody_ready (s s1 : State) (now clock : Nat) (kick : Int) (snare : Bool)
    (h : s.sessionState = SessionState.READY_TO_START)
    (hs : startSession s clock = some s1) :
    loopBody s now clock kick snare =
      (handleBeatCue s1 now).map (fun t => detectTaps t kick snare) := by
  have h1 : s1.sessionState = SessionState.IN_PROGRESS := by
    by_cases hb : s.bpm = 0
    · simp [startSession, hb] at hs
    · rw [startSession_eq s clock hb, Option.some.injEq] at hs
      rw [← hs]
  simp [loopBody, h, hs, h1]

theorem loopBody_inProgress (s : State) (now clock : Nat) (kick : Int) (snare : Bool)
    (h : s.sessionState = SessionState.IN_PROGRESS) :
    loopBody s now clock kick snare =
      (handleBeatCue s now).map (fun t => detectTaps t kick snare) := by
  simp [loopBody, h]

/-! ## C2: configuration during a session -/

/-- C2, as stated, fails: a tempo-only message received in mid-session puts
the controller in `READY_TO_START`, and the loop pass that follows resets
`hitCount` from 2 and `currentBeat` from 3 to 0. -/
theorem config_while_active_counterexample :
    midSession.sessionState = SessionState.IN_PROGRESS ∧
    (bpmOnly 100).command ≠ some "endSession" ∧
    midSession.hitCount = 2 ∧ midSession.currentBeat = 3 ∧
    ∃ s1 s2, handleWebSocketEvent midSession (WsEvent.text (some (bpmOnly 100))) = some s1 ∧
      s1.sessionState = SessionState.READY_TO_START ∧
      s1.sessionState ≠ SessionState.IN_PROGRESS ∧
      loopBody s1 2000 2000 0 false = some s2 ∧
      s2.hitCount = 0 ∧ s2.currentBeat = 0 := by
  refine ⟨rfl, by decide, rfl, rfl, _, _, rfl, rfl, by decide, rfl, rfl, rfl⟩

/-- C2 amended: a configuration message (no `endSession` command, resulting
tempo not zero) puts the controller in `READY_TO_START` whatever the session
state, Active included; the handler itself leaves `hitCount`, `currentBeat`
and `totalBeats` alone, and the loop pass that follows begins with
`startSession`, which sets `hitCount` and `currentBeat` to 0 and recomputes
`totalBeats` before the beat scheduler and the tap detector run. -/
theorem config_while_active_restarts (s : State) (doc : Msg)
    (hc : doc.command ≠ some "endSession") (hb : doc.bpm.getD s.bpm ≠ 0) :
    ∃ s1, handleWebSocketEvent s (WsEvent.text (some doc)) = some s1 ∧
      s1.sessionState = SessionState.READY_TO_START ∧
      s1.hitCount = s.hitCount ∧ s1.currentBeat = s.currentBeat ∧
      s1.totalBeats = s.totalBeats ∧
      ∀ (now clock : Nat) (kick : Int) (snare : Bool),
        ∃ s2, startSession s1 clock = some s2 ∧
          s2.hitCount = 0 ∧ s2.currentBeat = 0 ∧
          s2.totalBeats = s1.selectedLevel.beatsPerMeasure * 5 ∧
          s2.sessionState = SessionState.IN_PROGRESS ∧
          loopBody s1 now clock kick snare =
            (handleBeatCue s2 now).map (fun t => detectTaps t kick snare) := by
  obtain ⟨s1, he, hbpm, _, _, hst, hh, hcb, htb, _⟩ := handler_config_fields s doc hc hb
  refine ⟨s1, he, hst, hh, hcb, htb, ?_⟩
  intro now clock kick snare
  have hb1 : s1.bpm ≠ 0 := by rw [hbpm]; exact hb
  have hs := startSession_eq s1 clock hb1
  exact ⟨_, hs, rfl, rfl, rfl, rfl, loopBody_ready s1 _ now clock kick snare hst hs⟩

/-- C2 amended, at a session in progress with a tempo-only message. -/
theorem config_while_active_restarts_witness :
    midSession.sessionState = SessionState.IN_PROGRESS ∧
    ∃ s1, handleWebSocketEvent midSession (WsEvent.text (some (bpmOnly 100))) = some s1 ∧
      s1.sessionState = SessionState.READY_TO_START ∧
      s1.hitCount = 2 ∧ s1.currentBeat = 3 ∧ s1.totalBeats = 20 := by
  obtain ⟨s1, he, hst, hh, hcb, htb, _⟩ :=
    config_while_active_restarts midSession (bpmOnly 100) (by decide) (by decide)
  exact ⟨rfl, s1, he, hst, hh, hcb, htb⟩

/-! ## C3: tempo values the handler does not validate -/

theorem tdiv_le_cue_of_ge (b : Int) (h : 300 ≤ b) : Int.tdiv 60000 b ≤ cueDuration := by
  rw [Int.tdiv_eq_ediv (by norm_num) (by omega)]
  exact Int.ediv_le_of_le_mul (by omega) (by simp only [cueDuration]; omega)

theorem tdiv_le_cue_of_neg (b : Int) (h : b < 0) : Int.tdiv 60000 b ≤ cueDuration := by
  have h1 : Int.tdiv 60000 b ≤ 0 := Int.tdiv_nonpos (by norm_num) (by omega)
  simp only [cueDuration]
  omega

/-- C3, as stated, fails: a message with `bpm = 300` (beat interval 200 ms,
not above the cue duration) received in the initial state is applied: tempo,
beat interval and session state all change. -/
theorem invalid_bpm_counterexample :
    Int.tdiv 60000 300 ≤ cueDuration ∧
    ∃ s1, handleWebSocketEvent initState (WsEvent.text (some (bpmOnly 300))) = some s1 ∧
      initState.bpm = 120 ∧ s1.bpm = 300 ∧
      initState.beatInterval = 500 ∧ s1.beatInterval = 200 ∧
      initState.sessionState = SessionState.WAITING_FOR_CONFIG ∧
      s1.sessionState = SessionState.READY_TO_START := by
  refine ⟨by decide, _, rfl, rfl, rfl, rfl, rfl, rfl, rfl⟩

/-- C3 amended: a configuration message whose `bpm` is negative or at least
300 is applied like any other: `bpm` takes the value, `beatInterval` becomes
`60000 / bpm` (truncating, hence at most the cue duration), the accuracy
field is merged and the state becomes `READY_TO_START`; the division is by a
non-zero value. -/
theorem invalid_bpm_applied (s : State) (doc : Msg) (b : Int)
    (hc : doc.command ≠ some "endSession") (hdoc : doc.bpm = some b)
    (hb : b < 0 ∨ 300 ≤ b) :
    ∃ s1, handleWebSocketEvent s (WsEvent.text (some doc)) = some s1 ∧
      s1.bpm = b ∧ s1.bpm ≠ 0 ∧
      s1.beatInterval = Int.tdiv 60000 b ∧
      s1.beatInterval ≤ cueDuration ∧
      s1.targetAccuracy = doc.accuracy.getD s.targetAccuracy ∧
      s1.sessionState = SessionState.READY_TO_START := by
  have hget : doc.bpm.getD s.bpm = b := by rw [hdoc]; rfl
  have hne : doc.bpm.getD s.bpm ≠ 0 := by rw [hget]; omega
  obtain ⟨s1, he, hbpm, hacc, hbi, hst, _⟩ := handler_config_fields s doc hc hne
  rw [hget] at hbpm hbi
  refine ⟨s1, he, hbpm, by rw [hbpm]; omega, hbi, ?_, hacc, hst⟩
  rw [hbi]
  rcases hb with hb | hb
  · exact tdiv_le_cue_of_neg b hb
  · exact tdiv_le_cue_of_ge b hb

/-- C3 amended, at `bpm = 300` and at `bpm = -60` in the initial state. -/
theorem invalid_bpm_applied_witness :
    (∃ s1, handleWebSocketEvent initState (WsEvent.text (some (bpmOnly 300))) = some s1 ∧
      s1.bpm = 300 ∧ s1.beatInterval = 200 ∧
      s1.sessionState = SessionState.READY_TO_START) ∧
    (∃ s1, handleWebSocketEvent initState (WsEvent.text (some (bpmOnly (-60)))) = some s1 ∧
      s1.bpm = -60 ∧ s1.beatInterval = -1000 ∧
      s1.sessionState = SessionState.READY_TO_START) := by
  constructor
  · obtain ⟨s1, he, hbpm, _, hbi, _, _, hst⟩ :=
      invalid_bpm_applied initState (bpmOnly 300) 300 (by decide) rfl (Or.inr (by decide))
    exact ⟨s1, he, hbpm, hbi, hst⟩
  · obtain ⟨s1, he, hbpm, _, hbi, _, _, hst⟩ :=
      invalid_bpm_applied initState (bpmOnly (-60)) (-60) (by decide) rfl (Or.inl (by decide))
    exact ⟨s1, he, hbpm, hbi, hst⟩

/-! ## C4: ending with an empty tally -/

/-- C4: the `endSession` command received in the initial state
(`totalBeats = 0`, `hitCount = 0`) makes `endSession` divide `0.0` by zero:
the end summary carries NaN, not 0, and the comparison with the target is
false, so `retry` follows. -/
theorem endSession_zero_total_nan :
    initState.totalBeats = 0 ∧
    handleWebSocketEvent initState (WsEvent.text (some endCommand)) =
      some { initState with
        sent := [Event.endSummary 0 0 FloatVal.nan, Event.retry] } ∧
    FloatVal.div (initState.hitCount * 100) initState.totalBeats ≠ FloatVal.fin 0 := by
  refine ⟨rfl, rfl, by decide⟩

/-! ## C5: the `endSession` command -/

/-- What `endSession` leaves alone and what it sends, in both branches. -/
theorem endSession_frame (s : State) (h0 : 0 ≤ s.currentLevelIndex) :
    ∃ s1, endSession s = some s1 ∧
      s1.bpm = s.bpm ∧ s1.targetAccuracy = s.targetAccuracy ∧
      s1.beatInterval = s.beatInterval ∧
      s1.hitCount = s.hitCount ∧ s1.currentBeat = s.currentBeat ∧
      s1.totalBeats = s.totalBeats ∧
      s1.cueActive = false ∧
      s1.sessionState = SessionState.WAITING_FOR_CONFIG ∧
      ∃ outcome, (outcome = Event.levelUp ∨ outcome = Event.retry) ∧
        s1.sent = s.sent ++ [Event.endSummary s.hitCount s.totalBeats
          (FloatVal.div (s.hitCount * 100) s.totalBeats), outcome] := by
  by_cases hc : (FloatVal.div (s.hitCount * 100) s.totalBeats).ge s.targetAccuracy = true ∧
      s.currentLevelIndex < 2
  · obtain ⟨l, hl⟩ := levelAt_succ_some s.currentLevelIndex h0 hc.2
    rw [endSession_levelUp_eq s l hc.1 hc.2 hl]
    exact ⟨_, rfl, rfl, rfl, rfl, rfl, rfl, rfl, rfl, rfl, _, Or.inl rfl, rfl⟩
  · rw [endSession_retry_eq s hc]
    exact ⟨_, rfl, rfl, rfl, rfl, rfl, rfl, rfl, rfl, rfl, _, Or.inr rfl, rfl⟩

/-- C5: a message whose command is `endSession`, whatever else it carries,
received in any state with a non-negative catalog index: the handler leaves
`bpm`, `targetAccuracy` and `beatInterval` as they are, broadcasts an end
summary with the `hitCount` and `totalBeats` of the moment followed by
`levelUp` or `retry`, ends in `WAITING_FOR_CONFIG`, and the rest of the loop
pass changes nothing and broadcasts nothing, so no `beat`. -/
theorem endCommand_cancels (s : State) (doc : Msg)
    (hc : doc.command = some "endSession") (h0 : 0 ≤ s.currentLevelIndex) :
    ∃ s1, handleWebSocketEvent s (WsEvent.text (some doc)) = some s1 ∧
      s1.bpm = s.bpm ∧ s1.targetAccuracy = s.targetAccuracy ∧
      s1.beatInterval = s.beatInterval ∧
      (∃ accuracy outcome, (outcome = Event.levelUp ∨ outcome = Event.retry) ∧
        s1.sent = s.sent ++ [Event.endSummary s.hitCount s.totalBeats accuracy, outcome]) ∧
      s1.sessionState = SessionState.WAITING_FOR_CONFIG ∧
      ∀ (now clock : Nat) (kick : Int) (snare : Bool),
        loopBody s1 now clock kick snare = some s1 := by
  obtain ⟨s1, he, hb, ha, hi, _, _, _, _, hst, outcome, ho, hsent⟩ := endSession_frame s h0
  refine ⟨s1, ?_, hb, ha, hi, ⟨_, outcome, ho, hsent⟩, hst, ?_⟩
  · simp only [handleWebSocketEvent, if_pos hc]
    exact he
  · intro now clock kick snare
    exact loopBody_waiting s1 now clock kick snare hst

/-- C5 at a session in progress, the command carrying a tempo as well: the
tempo stays 120 and the summary reports 2 hits of 20. -/
theorem endCommand_cancels_witness :
    ∃ s1, handleWebSocketEvent midSession
        (WsEvent.text (some ⟨some "endSession", some 90, none, none⟩)) = some s1 ∧
      s1.bpm = 120 ∧ s1.sessionState = SessionState.WAITING_FOR_CONFIG ∧
      ∃ accuracy outcome, s1.sent = [Event.endSummary 2 20 accuracy, outcome] := by
  obtain ⟨s1, he, hb, _, _, ⟨a, o, _, hs⟩, hst, _⟩ :=
    endCommand_cancels midSession ⟨some "endSession", some 90, none, none⟩ rfl (by decide)
  exact ⟨s1, he, hb, hst, a, o, hs⟩

/-! ## The catalog search -/

theorem levelAt_cases (i : Int) (l : RhythmLevel) (h : levelAt i = some l) :
    (i = 0 ∧ l = ⟨4, "4/4"⟩) ∨ (i = 1 ∧ l = ⟨3, "3/4"⟩) ∨ (i = 2 ∧ l = ⟨6, "7/4"⟩) := by
  unfold levelAt at h
  split at h
  · rename_i h0
    have h3 : i.toNat < 3 := by
      by_contra hn
      have : levels.get? i.toNat = none := by
        rw [List.get?_eq_none]
        simp only [levels, List.length_cons, List.length_nil]
        omega
      rw [this] at h
      exact absurd h (by simp)
    have hi : i = 0 ∨ i = 1 ∨ i = 2 := by omega
    rcases hi with hi | hi | hi <;> subst hi <;>
      simp [levels] at h <;> simp [h.symm]
  · exact absurd h (by simp)

theorem findLevel_of_levelAt (i : Int) (l : RhythmLevel) (h : levelAt i = some l) :
    findLevel l.name levels 0 = some (i, l) := by
  rcases levelAt_cases i l h with ⟨hi, hl⟩ | ⟨hi, hl⟩ | ⟨hi, hl⟩ <;> subst hi <;> subst hl <;> rfl

theorem findLevel_sound (r : String) (i : Int) (l : RhythmLevel)
    (h : findLevel r levels 0 = some (i, l)) :
    0 ≤ i ∧ levelAt i = some l ∧ l.name = r := by
  simp only [levels, findLevel] at h
  split_ifs at h with h1 h2 h3
  all_goals simp only [Option.some.injEq, Prod.mk.injEq] at h
  · obtain ⟨hi, hl⟩ := h
    subst hi; subst hl
    exact ⟨by decide, rfl, h1⟩
  · obtain ⟨hi, hl⟩ := h
    subst hi; subst hl
    exact ⟨by decide, rfl, h2⟩
  · obtain ⟨hi, hl⟩ := h
    subst hi; subst hl
    exact ⟨by decide, rfl, h3⟩

theorem findLevel_none (r : String) (h : ∀ l ∈ levels, l.name ≠ r) :
    findLevel r levels 0 = none := by
  have h1 := h ⟨4, "4/4"⟩ (by simp [levels])
  have h2 := h ⟨3, "3/4"⟩ (by simp [levels])
  have h3 := h ⟨6, "7/4"⟩ (by simp [levels])
  simp only [levels, findLevel]
  simp only [ne_eq] at h1 h2 h3
  simp [h1, h2, h3]

/-! ## The configuration invariant -/

theorem configInv_init : ConfigInv initState :=
  ⟨by decide, rfl, by decide, rfl⟩

theorem endSession_configInv (s s1 : State) (h : ConfigInv s) (he : endSession s = some s1) :
    ConfigInv s1 := by
  obtain ⟨hb, hi, h0, hl⟩ := h
  by_cases hc : (FloatVal.div (s.hitCount * 100) s.totalBeats).ge s.targetAccuracy = true ∧
      s.currentLevelIndex < 2
  · obtain ⟨l, hl1⟩ := levelAt_succ_some s.currentLevelIndex h0 hc.2
    rw [endSession_levelUp_eq s l hc.1 hc.2 hl1, Option.some.injEq] at he
    subst he
    exact ⟨hb, hi, by show 0 ≤ s.currentLevelIndex + 1; omega, hl1⟩
  · rw [endSession_retry_eq s hc, Option.some.injEq] at he
    subst he
    exact ⟨hb, hi, h0, hl⟩

theorem handler_configInv (s s1 : State) (e : WsEvent) (h : ConfigInv s)
    (he : handleWebSocketEvent s e = some s1) : ConfigInv s1 := by
  cases e with
  | other =>
    simp only [handleWebSocketEvent, Option.some.injEq] at he
    subst he; exact h
  | text payload =>
    cases payload with
    | none =>
      simp only [handleWebSocketEvent, Option.some.injEq] at he
      subst he; exact h
    | some doc =>
      by_cases hc : doc.command = some "endSession"
      · simp only [handleWebSocketEvent, if_pos hc] at he
        exact endSession_configInv s s1 h he
      · by_cases hb : doc.bpm.getD s.bpm = 0
        · rw [handler_bpm_zero s doc hc hb] at he
          exact absurd he (by simp)
        · rw [handler_config_eq s doc hc hb, Option.some.injEq] at he
          subst he
          cases hf : findLevel (doc.rhythm.getD s.selectedLevel.name) levels 0 with
          | none => exact ⟨hb, rfl, h.2.2.1, h.2.2.2⟩
          | some p =>
            obtain ⟨i, l⟩ := p
            obtain ⟨hi0, hil, _⟩ := findLevel_sound _ i l hf
            exact ⟨hb, rfl, hi0, hil⟩

theorem startSession_configInv (s s1 : State) (clock : Nat) (h : ConfigInv s)
    (he : startSession s clock = some s1) : ConfigInv s1 := by
  rw [startSession_eq s clock h.1, Option.some.injEq] at he
  subst he
  exact ⟨h.1, rfl, h.2.2.1, h.2.2.2⟩

theorem closeCue_configInv (s : State) (now : Nat) (h : ConfigInv s) :
    ConfigInv (closeCue s now) := by
  simp only [closeCue]
  split_ifs <;> exact h

theorem kickTap_configInv (s : State) (kick : Int) (h : ConfigInv s) :
    ConfigInv (kickTap s kick) := by
  simp only [kickTap]
  split_ifs <;> exact h

theorem snareTap_configInv (s : State) (snare : Bool) (h : ConfigInv s) :
    ConfigInv (snareTap s snare) := by
  simp only [snareTap]
  split_ifs <;> exact h

theorem detectTaps_configInv (s : State) (kick : Int) (snare : Bool) (h : ConfigInv s) :
    ConfigInv (detectTaps s kick snare) :=
  snareTap_configInv _ snare (kickTap_configInv s kick h)

theorem openCue_configInv (s s1 : State) (now : Nat) (h : ConfigInv s)
    (he : openCue s now = some s1) : ConfigInv s1 := by
  simp only [openCue] at he
  split_ifs at he with h1 h2
  · exact endSession_configInv _ s1 (by exact h) he
  · simp only [Option.some.injEq] at he
    subst he; exact h
  · simp only [Option.some.injEq] at he
    subst he; exact h

theorem handleBeatCue_configInv (s s1 : State) (now : Nat) (h : ConfigInv s)
    (he : handleBeatCue s now = some s1) : ConfigInv s1 := by
  unfold handleBeatCue at he
  cases ho : openCue s now with
  | none => rw [ho] at he; exact absurd he (by simp)
  | some t =>
    rw [ho] at he
    simp only [Option.map_some', Option.some.injEq] at he
    subst he
    exact closeCue_configInv t now (openCue_configInv s t now h ho)

theorem loopBody_configInv (s s1 : State) (now clock : Nat) (kick : Int) (snare : Bool)
    (h : ConfigInv s) (he : loopBody s now clock kick snare = some s1) : ConfigInv s1 := by
  have key : ∀ t : State, ConfigInv t →
      (if t.sessionState = SessionState.IN_PROGRESS then
        (handleBeatCue t now).map (fun s2 => detectTaps s2 kick snare)
      else some t) = some s1 → ConfigInv s1 := by
    intro t ht hr
    split_ifs at hr with hp
    · cases hh : handleBeatCue t now with
      | none => rw [hh] at hr; exact absurd hr (by simp)
      | some u =>
        rw [hh] at hr
        simp only [Option.map_some', Option.some.injEq] at hr
        subst hr
        exact detectTaps_configInv u kick snare (handleBeatCue_configInv t u now ht hh)
    · simp only [Option.some.injEq] at hr
      subst hr; exact ht
  unfold loopBody at he
  split_ifs at he with hr
  · cases hs : startSession s clock with
    | none => rw [hs] at he; exact absurd he (by simp)
    | some t =>
      rw [hs] at he
      exact key t (startSession_configInv s t clock h hs) he
  · exact key s h he

theorem reachable_configInv (s : State) (h : Reachable s) : ConfigInv s := by
  induction h with
  | init => exact configInv_init
  | message s e s1 _ he ih => exact handler_configInv s s1 e ih he
  | pass s now clock kick snare s1 _ he ih =>
    exact loopBody_configInv s s1 now clock kick snare ih he

/-! ## C6, C7: merging a configuration message -/

/-- C6: in a reachable state, a configuration message (no `endSession`
command) whose `bpm`, when present, is positive is merged field by field: a
present `bpm` or `accuracy` overwrites `bpm` or `targetAccuracy`, an absent
one leaves it as it was, and without a `rhythm` field the catalog selection
(`currentLevelIndex` and `selectedLevel`) stays as it was. -/
theorem config_merge (s : State) (doc : Msg) (hr : Reachable s)
    (hc : doc.command ≠ some "endSession") (hw : ∀ b, doc.bpm = some b → 0 < b) :
    ∃ s1, handleWebSocketEvent s (WsEvent.text (some doc)) = some s1 ∧
      (∀ b, doc.bpm = some b → s1.bpm = b) ∧
      (doc.bpm = none → s1.bpm = s.bpm) ∧
      (∀ a, doc.accuracy = some a → s1.targetAccuracy = a) ∧
      (doc.accuracy = none → s1.targetAccuracy = s.targetAccuracy) ∧
      (doc.rhythm = none →
        s1.currentLevelIndex = s.currentLevelIndex ∧ s1.selectedLevel = s.selectedLevel) := by
  obtain ⟨hb0, _, _, hl⟩ := reachable_configInv s hr
  have hb : doc.bpm.getD s.bpm ≠ 0 := by
    cases hd : doc.bpm with
    | none => exact hb0
    | some b =>
      have := hw b hd
      show b ≠ 0
      omega
  rw [handler_config_eq s doc hc hb]
  refine ⟨_, rfl, ?_, ?_, ?_, ?_, ?_⟩
  · intro b hd
    cases findLevel (doc.rhythm.getD s.selectedLevel.name) levels 0 <;> simp [hd]
  · intro hd
    cases findLevel (doc.rhythm.getD s.selectedLevel.name) levels 0 <;> simp [hd]
  · intro a hd
    cases findLevel (doc.rhythm.getD s.selectedLevel.name) levels 0 <;> simp [hd]
  · intro hd
    cases findLevel (doc.rhythm.getD s.selectedLevel.name) levels 0 <;> simp [hd]
  · intro hd
    have hf : findLevel (doc.rhythm.getD s.selectedLevel.name) levels 0 =
        some (s.currentLevelIndex, s.selectedLevel) := by
      rw [hd]
      exact findLevel_of_levelAt _ _ hl
    rw [hf]
    exact ⟨rfl, rfl⟩

/-- C6 in the initial state with a tempo-only message: the tempo becomes 90,
target accuracy and selection stay. -/
theorem config_merge_witness :
    ∃ s1, handleWebSocketEvent initState (WsEvent.text (some (bpmOnly 90))) = some s1 ∧
      s1.bpm = 90 ∧ s1.targetAccuracy = 85 ∧
      s1.currentLevelIndex = 0 ∧ s1.selectedLevel = ⟨4, "4/4"⟩ := by
  obtain ⟨s1, he, hb, _, _, ha, hsel⟩ :=
    config_merge initState (bpmOnly 90) Reachable.init (by decide)
      (by intro b hb; simp only [bpmOnly, Option.some.injEq] at hb; omega)
  exact ⟨s1, he, hb 90 rfl, ha rfl, (hsel rfl).1, (hsel rfl).2⟩

/-- C7: a configuration message carrying a rhythm name `r` (resulting tempo
not zero): when `r` is the name of a catalog entry, compared as strings, the
selection becomes that entry and its index; when no catalog entry has that
name the selection is unchanged; the `bpm` and `accuracy` fields of the
message, when present, are applied in both cases. -/
theorem rhythm_lookup (s : State) (doc : Msg) (r : String)
    (hc : doc.command ≠ some "endSession") (hr : doc.rhythm = some r)
    (hb : doc.bpm.getD s.bpm ≠ 0) :
    ∃ s1, handleWebSocketEvent s (WsEvent.text (some doc)) = some s1 ∧
      (∀ i l, levelAt i = some l → l.name = r →
        s1.currentLevelIndex = i ∧ s1.selectedLevel = l) ∧
      ((∀ l ∈ levels, l.name ≠ r) →
        s1.currentLevelIndex = s.currentLevelIndex ∧ s1.selectedLevel = s.selectedLevel) ∧
      (∀ b, doc.bpm = some b → s1.bpm = b) ∧
      (∀ a, doc.accuracy = some a → s1.targetAccuracy = a) := by
  have hg : doc.rhythm.getD s.selectedLevel.name = r := by rw [hr]; rfl
  rw [handler_config_eq s doc hc hb, hg]
  refine ⟨_, rfl, ?_, ?_, ?_, ?_⟩
  · intro i l hl hn
    have hf := findLevel_of_levelAt i l hl
    rw [hn] at hf
    rw [hf]
    exact ⟨rfl, rfl⟩
  · intro hn
    rw [findLevel_none r hn]
    exact ⟨rfl, rfl⟩
  · intro b hd
    cases findLevel r levels 0 <;> simp [hd]
  · intro a hd
    cases findLevel r levels 0 <;> simp [hd]

/-- C7 in the initial state: the name `7/4` selects the third entry, the
name `5/8` selects nothing and the first entry stays selected. -/
theorem rhythm_lookup_witness :
    (∃ s1, handleWebSocketEvent initState (WsEvent.text (some (rhythmOnly "7/4"))) = some s1 ∧
      s1.currentLevelIndex = 2 ∧ s1.selectedLevel = ⟨6, "7/4"⟩) ∧
    (∃ s1, handleWebSocketEvent initState (WsEvent.text (some (rhythmOnly "5/8"))) = some s1 ∧
      s1.currentLevelIndex = 0 ∧ s1.selectedLevel = ⟨4, "4/4"⟩) := by
  constructor
  · obtain ⟨s1, he, hfound, _, _, _⟩ :=
      rhythm_lookup initState (rhythmOnly "7/4") "7/4" (by decide) rfl (by decide)
    have h := hfound 2 ⟨6, "7/4"⟩ rfl rfl
    exact ⟨s1, he, h.1, h.2⟩
  · obtain ⟨s1, he, _, hmissing, _, _⟩ :=
      rhythm_lookup initState (rhythmOnly "5/8") "5/8" (by decide) rfl (by decide)
    have h := hmissing (by decide)
    exact ⟨s1, he, h.1, h.2⟩

/-! ## C8: the beat interval -/

/-- C8: a configuration message that results in a positive tempo, and
`startSession` run with a positive tempo, both leave `beatInterval` equal to
`60000 / bpm` with truncating division (which for a positive tempo is also
the floor quotient); the equality holds in every reachable state; and the
initial tempo of 120 goes with the initial interval of 500. -/
theorem beatInterval_quotient :
    (∀ (s : State) (doc : Msg), doc.command ≠ some "endSession" → 0 < doc.bpm.getD s.bpm →
      ∃ s1, handleWebSocketEvent s (WsEvent.text (some doc)) = some s1 ∧
        s1.bpm = doc.bpm.getD s.bpm ∧
        s1.beatInterval = Int.tdiv 60000 s1.bpm ∧ s1.beatInterval = 60000 / s1.bpm) ∧
    (∀ (s : State) (clock : Nat), 0 < s.bpm →
      ∃ s1, startSession s clock = some s1 ∧ s1.bpm = s.bpm ∧
        s1.beatInterval = Int.tdiv 60000 s1.bpm ∧ s1.beatInterval = 60000 / s1.bpm) ∧
    (∀ s : State, Reachable s → s.beatInterval = Int.tdiv 60000 s.bpm) ∧
    (initState.bpm = 120 ∧ initState.beatInterval = 500) := by
  refine ⟨?_, ?_, ?_, ?_⟩
  · intro s doc hc hpos
    obtain ⟨s1, he, hbpm, _, hbi, _⟩ := handler_config_fields s doc hc (by omega)
    have h1 : s1.beatInterval = Int.tdiv 60000 s1.bpm := by rw [hbi, hbpm]
    refine ⟨s1, he, hbpm, h1, ?_⟩
    rw [h1, Int.tdiv_eq_ediv (by norm_num) (by rw [hbpm]; omega)]
  · intro s clock hpos
    rw [startSession_eq s clock (by omega)]
    refine ⟨_, rfl, rfl, rfl, ?_⟩
    show Int.tdiv 60000 s.bpm = 60000 / s.bpm
    rw [Int.tdiv_eq_ediv (by norm_num) (by omega)]
  · intro s hr
    exact (reachable_configInv s hr).2.1
  · exact ⟨rfl, rfl⟩

/-- C8 at the default tempo: a message with `bpm = 120` in the initial
state leaves `beatInterval = 500`. -/
theorem beatInterval_quotient_witness :
    ∃ s1, handleWebSocketEvent initState (WsEvent.text (some (bpmOnly 120))) = some s1 ∧
      s1.bpm = 120 ∧ s1.beatInterval = 500 := by
  obtain ⟨s1, he, hb, hi, _⟩ :=
    beatInterval_quotient.1 initState (bpmOnly 120) (by decide) (by decide)
  refine ⟨s1, he, hb, ?_⟩
  rw [hi, hb]
  rfl

/-! ## C9: starting a session -/

/-- C9: `startSession` run in any state with a non-zero tempo ends with
`hitCount = 0`, `currentBeat = 0`, no cue window open, `totalBeats` five
times the `beatsPerMeasure` of the selected variant and the session state
`IN_PROGRESS`; for the three catalog entries `totalBeats` is 20, 15 and 30. -/
theorem startSession_resets (s : State) (clock : Nat) (hb : s.bpm ≠ 0) :
    ∃ s1, startSession s clock = some s1 ∧
      s1.hitCount = 0 ∧ s1.currentBeat = 0 ∧ s1.cueActive = false ∧
      s1.totalBeats = s.selectedLevel.beatsPerMeasure * 5 ∧
      s1.sessionState = SessionState.IN_PROGRESS ∧
      (∀ i, levelAt i = some s.selectedLevel →
        (i = 0 ∧ s1.totalBeats = 20) ∨ (i = 1 ∧ s1.totalBeats = 15) ∨
        (i = 2 ∧ s1.totalBeats = 30)) := by
  rw [startSession_eq s clock hb]
  refine ⟨_, rfl, rfl, rfl, rfl, rfl, rfl, ?_⟩
  intro i hl
  rcases levelAt_cases i _ hl with ⟨hi, hs⟩ | ⟨hi, hs⟩ | ⟨hi, hs⟩
  · exact Or.inl ⟨hi, by simp [hs, NUM_CYCLES]⟩
  · exact Or.inr (Or.inl ⟨hi, by simp [hs, NUM_CYCLES]⟩)
  · exact Or.inr (Or.inr ⟨hi, by simp [hs, NUM_CYCLES]⟩)

/-- C9 at a session in progress: restarting it clears the tally of 2 hits
and 3 beats and sets `totalBeats` to 20. -/
theorem startSession_resets_witness :
    midSession.hitCount = 2 ∧ midSession.currentBeat = 3 ∧
    ∃ s1, startSession midSession 2000 = some s1 ∧
      s1.hitCount = 0 ∧ s1.currentBeat = 0 ∧ s1.cueActive = false ∧
      s1.totalBeats = 20 ∧ s1.sessionState = SessionState.IN_PROGRESS := by
  obtain ⟨s1, he, hh, hc, hq, ht, hst, _⟩ := startSession_resets midSession 2000 (by decide)
  exact ⟨rfl, rfl, s1, he, hh, hc, hq, ht, hst⟩

/-! ## C10: the beat events of a session -/

theorem beatsOf_append (a b : List Event) : beatsOf (a ++ b) = beatsOf a ++ beatsOf b := by
  simp [beatsOf, List.filterMap_append]

theorem firstBeats_succ (n : Nat) (T : Int) :
    firstBeats (n + 1) T = firstBeats n T ++ [((n : Int) + 1, T)] := by
  simp [firstBeats, List.range_succ]

theorem closeCue_frame (s : State) (now : Nat) :
    ∃ evs, (closeCue s now).sent = s.sent ++ evs ∧ beatsOf evs = [] ∧
      (closeCue s now).sessionState = s.sessionState ∧
      (closeCue s now).currentBeat = s.currentBeat ∧
      (closeCue s now).totalBeats = s.totalBeats ∧
      (closeCue s now).currentLevelIndex = s.currentLevelIndex := by
  simp only [closeCue]
  split_ifs
  · exact ⟨[Event.miss], rfl, rfl, rfl, rfl, rfl, rfl⟩
  · exact ⟨[], by simp, rfl, rfl, rfl, rfl, rfl⟩
  · exact ⟨[], by simp, rfl, rfl, rfl, rfl, rfl⟩

theorem kickTap_frame (s : State) (kick : Int) :
    ∃ evs, (kickTap s kick).sent = s.sent ++ evs ∧ beatsOf evs = [] ∧
      (kickTap s kick).sessionState = s.sessionState ∧
      (kickTap s kick).currentBeat = s.currentBeat ∧
      (kickTap s kick).totalBeats = s.totalBeats ∧
      (kickTap s kick).currentLevelIndex = s.currentLevelIndex := by
  simp only [kickTap]
  split_ifs
  · exact ⟨[Event.kick, Event.hit], by simp, rfl, rfl, rfl, rfl, rfl⟩
  · exact ⟨[Event.kick], rfl, rfl, rfl, rfl, rfl, rfl⟩
  · exact ⟨[], by simp, rfl, rfl, rfl, rfl, rfl⟩

theorem snareTap_frame (s : State) (snare : Bool) :
    ∃ evs, (snareTap s snare).sent = s.sent ++ evs ∧ beatsOf evs = [] ∧
      (snareTap s snare).sessionState = s.sessionState ∧
      (snareTap s snare).currentBeat = s.currentBeat ∧
      (snareTap s snare).totalBeats = s.totalBeats ∧
      (snareTap s snare).currentLevelIndex = s.currentLevelIndex := by
  simp only [snareTap]
  split_ifs
  · exact ⟨[Event.snare, Event.hit], by simp, rfl, rfl, rfl, rfl, rfl⟩
  · exact ⟨[Event.snare], rfl, rfl, rfl, rfl, rfl, rfl⟩
  · exact ⟨[], by simp, rfl, rfl, rfl, rfl, rfl⟩

theorem detectTaps_frame (s : State) (kick : Int) (snare : Bool) :
    ∃ evs, (detectTaps s kick snare).sent = s.sent ++ evs ∧ beatsOf evs = [] ∧
      (detectTaps s kick snare).sessionState = s.sessionState ∧
      (detectTaps s kick snare).currentBeat = s.currentBeat ∧
      (detectTaps s kick snare).totalBeats = s.totalBeats ∧
      (detectTaps s kick snare).currentLevelIndex = s.currentLevelIndex := by
  obtain ⟨e1, h1, b1, a1, c1, t1, i1⟩ := kickTap_frame s kick
  obtain ⟨e2, h2, b2, a2, c2, t2, i2⟩ := snareTap_frame (kickTap s kick) snare
  refine ⟨e1 ++ e2, ?_, ?_, ?_, ?_, ?_, ?_⟩
  · rw [detectTaps, h2, h1, List.append_assoc]
  · rw [beatsOf_append, b1, b2]; rfl
  · rw [detectTaps, a2, a1]
  · rw [detectTaps, c2, c1]
  · rw [detectTaps, t2, t1]
  · rw [detectTaps, i2, i1]

theorem endSession_index_nonneg (s s1 : State) (h0 : 0 ≤ s.currentLevelIndex)
    (he : endSession s = some s1) : 0 ≤ s1.currentLevelIndex := by
  by_cases hc : (FloatVal.div (s.hitCount * 100) s.totalBeats).ge s.targetAccuracy = true ∧
      s.currentLevelIndex < 2
  · obtain ⟨l, hl1⟩ := levelAt_succ_some s.currentLevelIndex h0 hc.2
    rw [endSession_levelUp_eq s l hc.1 hc.2 hl1, Option.some.injEq] at he
    subst he
    show 0 ≤ s.currentLevelIndex + 1
    omega
  · rw [endSession_retry_eq s hc, Option.some.injEq] at he
    subst he
    exact h0

theorem sessionInv_of_same (T : Int) (s t : State) (n : Nat) (h : SessionInv T s n)
    (h1 : t.sessionState = s.sessionState) (h2 : t.currentBeat = s.currentBeat)
    (h3 : t.totalBeats = s.totalBeats) (h4 : t.currentLevelIndex = s.currentLevelIndex) :
    SessionInv T t n := by
  unfold SessionInv at h ⊢
  rw [h1, h2, h3, h4]
  exact h

/-- One run of the first half of `handleBeatCue` in a session in progress
cues no beat or the next one, and ends the session with the last one. -/
theorem openCue_step (T : Int) (s : State) (n : Nat) (now : Nat)
    (hT : s.totalBeats = T) (h0 : 0 ≤ s.currentLevelIndex)
    (hp : s.sessionState = SessionState.IN_PROGRESS)
    (hc : s.currentBeat = (n : Int)) (hn : (n : Int) < T) :
    ∃ s1 evs m, openCue s now = some s1 ∧ s1.sent = s.sent ++ evs ∧ SessionInv T s1 m ∧
      ((m = n ∧ beatsOf evs = []) ∨
        (m = n + 1 ∧ beatsOf evs = [((n : Int) + 1, T)])) := by
  simp only [openCue]
  split_ifs with h1 h2
  · have hf := endSession_frame
      { s with
        cueActive := true
        cueStartTime := now
        lastBeatTime := now
        kickTapped := false
        snareTapped := false
        currentBeat := s.currentBeat + 1
        sent := s.sent ++ [Event.beat (s.currentBeat + 1) s.totalBeats] } h0
    obtain ⟨s1, he, _, _, _, _, _, htb, _, hst, outcome, ho, hsent⟩ := hf
    have hi := endSession_index_nonneg _ s1 (by exact h0) he
    refine ⟨s1, [Event.beat (s.currentBeat + 1) s.totalBeats,
        Event.endSummary s.hitCount s.totalBeats (FloatVal.div (s.hitCount * 100) s.totalBeats),
        outcome], n + 1, he, ?_, ⟨?_, hi, Or.inr ⟨hst, ?_⟩⟩, Or.inr ⟨rfl, ?_⟩⟩
    · rw [hsent]
      simp only [List.append_assoc, List.singleton_append]
    · rw [htb]; exact hT
    · simp only at h2
      push_cast
      omega
    · rw [hc, hT]
      rcases ho with ho | ho <;> subst ho <;> simp [beatsOf]
  · refine ⟨_, [Event.beat (s.currentBeat + 1) s.totalBeats], n + 1, rfl, rfl,
      ⟨hT, h0, Or.inl ⟨hp, ?_, ?_⟩⟩, Or.inr ⟨rfl, ?_⟩⟩
    · show s.currentBeat + 1 = ((n + 1 : Nat) : Int)
      push_cast
      omega
    · simp only at h2
      push_cast
      omega
    · rw [hc, hT]
      simp [beatsOf]
  · exact ⟨s, [], n, rfl, by simp, ⟨hT, h0, Or.inl ⟨hp, hc, hn⟩⟩, Or.inl ⟨rfl, rfl⟩⟩

/-- One loop pass without inbound message keeps the session invariant and
broadcasts no beat or exactly the next one. -/
theorem loopBody_step (T : Int) (s : State) (n : Nat) (now clock : Nat) (kick : Int)
    (snare : Bool) (h : SessionInv T s n) :
    ∃ s1 evs m, loopBody s now clock kick snare = some s1 ∧ s1.sent = s.sent ++ evs ∧
      SessionInv T s1 m ∧
      ((m = n ∧ beatsOf evs = []) ∨
        (m = n + 1 ∧ beatsOf evs = [((n : Int) + 1, T)])) := by
  obtain ⟨hT, h0, hcase⟩ := h
  rcases hcase with ⟨hp, hc, hn⟩ | ⟨hw, hn⟩
  · obtain ⟨a, e1, m, ha, hs1, hinv, hb1⟩ := openCue_step T s n now hT h0 hp hc hn
    obtain ⟨e2, hs2, hb2, c1, c2, c3, c4⟩ := closeCue_frame a now
    obtain ⟨e3, hs3, hb3, d1, d2, d3, d4⟩ := detectTaps_frame (closeCue a now) kick snare
    refine ⟨detectTaps (closeCue a now) kick snare, e1 ++ (e2 ++ e3), m, ?_, ?_, ?_, ?_⟩
    · rw [loopBody_inProgress s now clock kick snare hp]
      simp [handleBeatCue, ha]
    · rw [hs3, hs2, hs1]
      simp only [List.append_assoc]
    · exact sessionInv_of_same T _ _ m (sessionInv_of_same T a _ m hinv c1 c2 c3 c4) d1 d2 d3 d4
    · rcases hb1 with ⟨hm, hb⟩ | ⟨hm, hb⟩
      · exact Or.inl ⟨hm, by simp [beatsOf_append, hb, hb2, hb3]⟩
      · exact Or.inr ⟨hm, by simp [beatsOf_append, hb, hb2, hb3]⟩
  · exact ⟨s, [], n, loopBody_waiting s now clock kick snare hw, by simp,
      ⟨hT, h0, Or.inr ⟨hw, hn⟩⟩, Or.inl ⟨rfl, rfl⟩⟩

theorem runPasses_inv (T : Int) (base : List Event) (passes : List PassInput) :
    ∀ (s : State) (n : Nat) (pre : List Event), SessionInv T s n → s.sent = base ++ pre →
      beatsOf pre = firstBeats n T →
      ∃ sf evs m, runPasses s passes = some sf ∧ sf.sent = base ++ evs ∧
        beatsOf evs = firstBeats m T ∧ SessionInv T sf m := by
  induction passes with
  | nil =>
    intro s n pre hinv hs hb
    exact ⟨s, pre, n, rfl, hs, hb, hinv⟩
  | cons p ps ih =>
    intro s n pre hinv hs hb
    obtain ⟨s1, e1, m, hl, hs1, hinv1, hcase⟩ :=
      loopBody_step T s n p.now p.clock p.kick p.snare hinv
    have hb1 : beatsOf (pre ++ e1) = firstBeats m T := by
      rw [beatsOf_append, hb]
      rcases hcase with ⟨hm, he⟩ | ⟨hm, he⟩
      · rw [he, hm, List.append_nil]
      · rw [he, hm, firstBeats_succ]
    obtain ⟨sf, evs, k, hr, hsf, hbf, hinvf⟩ :=
      ih s1 m (pre ++ e1) hinv1 (by rw [hs1, hs, List.append_assoc]) hb1
    refine ⟨sf, evs, k, ?_, hsf, hbf, hinvf⟩
    simp [runPasses, loop, drain, hl, hr]
/-- C10: a session begun by `startSession` with `totalBeats = T ≥ 1` (catalog
index not negative) and driven by any sequence of loop passes without inbound
message: the passes all complete, and the `beat` events broadcast since the
start are exactly `beat:1/T`, ..., `beat:n/T` in this order for some
`n ≤ T`; the controller is back in `WAITING_FOR_CONFIG` exactly when `n = T`,
and otherwise the session is in progress with `currentBeat = n`.  As this
holds after every pass, beat `T` and the end of the session fall in the same
pass, and no ordinal above `T` is ever broadcast. -/
theorem beats_in_order (s0 s : State) (clock : Nat) (passes : List PassInput)
    (hs : startSession s0 clock = some s) (hT : 1 ≤ s.totalBeats)
    (h0 : 0 ≤ s0.currentLevelIndex) :
    ∃ sf evs, ∃ n : Nat, runPasses s passes = some sf ∧ sf.sent = s.sent ++ evs ∧
      beatsOf evs = firstBeats n s.totalBeats ∧ (n : Int) ≤ s.totalBeats ∧
      (sf.sessionState = SessionState.WAITING_FOR_CONFIG ↔ (n : Int) = s.totalBeats) ∧
      ((n : Int) < s.totalBeats →
        sf.sessionState = SessionState.IN_PROGRESS ∧ sf.currentBeat = (n : Int)) := by
  have hb : s0.bpm ≠ 0 := by
    intro hz
    simp [startSession, hz] at hs
  rw [startSession_eq s0 clock hb, Option.some.injEq] at hs
  have hinv : SessionInv s.totalBeats s 0 := by
    refine ⟨rfl, ?_, Or.inl ⟨?_, ?_, ?_⟩⟩
    · rw [← hs]; exact h0
    · rw [← hs]
    · rw [← hs]; rfl
    · push_cast; omega
  obtain ⟨sf, evs, n, hr, hsent, hbeats, hT1, h1, hcase⟩ :=
    runPasses_inv s.totalBeats s.sent passes s 0 [] hinv (by simp) rfl
  refine ⟨sf, evs, n, hr, hsent, hbeats, ?_, ?_, ?_⟩
  · rcases hcase with ⟨_, _, hlt⟩ | ⟨_, heq⟩ <;> omega
  · rcases hcase with ⟨hp, _, hlt⟩ | ⟨hw, heq⟩
    · constructor
      · intro hw
        rw [hp] at hw
        exact absurd hw (by decide)
      · intro heq
        omega
    · exact ⟨fun _ => heq, fun _ => hw⟩
  · intro hlt
    rcases hcase with ⟨hp, hc, _⟩ | ⟨_, heq⟩
    · exact ⟨hp, hc⟩
    · omega

/-- C10 on a session of 15 beats at 120 bpm with one pass every 250 ms:
after four passes the beats are 1 and 2 and the session is in progress, after
thirty passes the beats are 1 to 15 and the controller is idle, and further
passes add nothing. -/
theorem beats_in_order_witness :
    (∃ sf evs, ∃ n : Nat, runPasses waltzStart (steadyPasses 32) = some sf ∧
      sf.sent = waltzStart.sent ++ evs ∧ beatsOf evs = firstBeats n 15 ∧ (n : Int) ≤ 15) ∧
    (runPasses waltzStart (steadyPasses 4)).map
        (fun sf => (beatsOf sf.sent, sf.sessionState)) =
      some ([(1, 15), (2, 15)], SessionState.IN_PROGRESS) ∧
    (runPasses waltzStart (steadyPasses 30)).map
        (fun sf => (beatsOf sf.sent, sf.sessionState)) =
      some (firstBeats 15 15, SessionState.WAITING_FOR_CONFIG) ∧
    (runPasses waltzStart (steadyPasses 32)).map
        (fun sf => (beatsOf sf.sent, sf.sessionState)) =
      some (firstBeats 15 15, SessionState.WAITING_FOR_CONFIG) := by
  refine ⟨?_, by rfl, by decide!, by decide!⟩
  obtain ⟨sf, evs, n, hr, hsent, hb, hle, _, _⟩ :=
    beats_in_order waltzReady waltzStart 0 (steadyPasses 32) rfl (by decide) (by decide)
  exact ⟨sf, evs, n, hr, hsent, hb, hle⟩

/-! ## C12: a session without hits -/

/-- C12, as stated, fails at target accuracy 0: with no hit out of 20 on the
first variant the accuracy 0 reaches the target, `levelUp` is broadcast and
the selection moves to the second variant. -/
theorem zero_hits_counterexample :
    zeroTarget.hitCount = 0 ∧ 0 < zeroTarget.totalBeats ∧
    0 ≤ zeroTarget.targetAccuracy ∧ zeroTarget.targetAccuracy ≤ 100 ∧
    zeroTarget.currentLevelIndex = 0 ∧
    endSession zeroTarget = some { zeroTarget with
      currentLevelIndex := 1
      selectedLevel := ⟨3, "3/4"⟩
      sent := [Event.endSummary 0 20 (FloatVal.fin 0), Event.levelUp] } := by
  refine ⟨rfl, by decide, ?_, ?_, rfl, by decide!⟩
  · simp [zeroTarget]
  · simp [zeroTarget]

/-- C12 amended: with `hitCount = 0`, `totalBeats > 0` and a target accuracy
above 0, whatever the catalog selection, `endSession` reports accuracy 0,
broadcasts `retry` after the summary and leaves the selection unchanged. -/
theorem zero_hits_retry (s : State) (hh : s.hitCount = 0) (hT : 0 < s.totalBeats)
    (ht : 0 < s.targetAccuracy) :
    ∃ s1, endSession s = some s1 ∧
      s1.sent = s.sent ++ [Event.endSummary 0 s.totalBeats (FloatVal.fin 0), Event.retry] ∧
      s1.currentLevelIndex = s.currentLevelIndex ∧ s1.selectedLevel = s.selectedLevel ∧
      s1.sessionState = SessionState.WAITING_FOR_CONFIG := by
  have hd : FloatVal.div (s.hitCount * 100) s.totalBeats = FloatVal.fin 0 := by
    rw [div_pos_eq _ _ hT, hh, Int.zero_mul, floatQuotient_zero]
  have hn : ¬ ((FloatVal.div (s.hitCount * 100) s.totalBeats).ge s.targetAccuracy = true ∧
      s.currentLevelIndex < 2) := by
    rintro ⟨hge, _⟩
    rw [hd] at hge
    simp only [FloatVal.ge, decide_eq_true_eq] at hge
    exact absurd ht (not_lt.mpr hge)
  rw [endSession_retry_eq s hn, hd, hh]
  exact ⟨_, rfl, rfl, rfl, rfl, rfl⟩

/-- C12 amended, at no hit out of 20 with the default target of 85. -/
theorem zero_hits_retry_witness :
    ∃ s1, endSession (demoState 0 20) = some s1 ∧
      s1.sent = [Event.endSummary 0 20 (FloatVal.fin 0), Event.retry] ∧
      s1.currentLevelIndex = 0 := by
  obtain ⟨s1, he, hs, hi, _, _⟩ :=
    zero_hits_retry (demoState 0 20) rfl (by decide) (by norm_num [demoState, initState])
  exact ⟨s1, he, hs, hi⟩

/-! ## C14: taps outside a cue window -/

/-- What `detectTaps` does while no cue window is open. -/
theorem detectTaps_closed (s : State) (kick : Int) (snare : Bool)
    (hq : s.cueActive = false) :
    (detectTaps s kick snare).hitCount = s.hitCount ∧
    (detectTaps s kick snare).sent = s.sent ++
      ((if 100 < kick ∧ s.kickTapped = false then [Event.kick] else []) ++
        (if snare = true ∧ s.snareTapped = false then [Event.snare] else [])) := by
  constructor
  · simp only [detectTaps, kickTap, snareTap, THRESHOLD, hq]
    split_ifs <;> simp_all
  · simp only [detectTaps, kickTap, snareTap, THRESHOLD, hq]
    split_ifs <;> simp_all

/-- C14: with no cue window open, `detectTaps` leaves `hitCount` as it is and
broadcasts exactly the raw event of each channel whose reading is a detection
(`kick > 100`, snare high) and whose latch is clear, the kick first; so no
`hit` and no `miss`. -/
theorem detectTaps_no_window (s : State) (kick : Int) (snare : Bool)
    (hq : s.cueActive = false) :
    (detectTaps s kick snare).hitCount = s.hitCount ∧
    (detectTaps s kick snare).sent = s.sent ++
      ((if 100 < kick ∧ s.kickTapped = false then [Event.kick] else []) ++
        (if snare = true ∧ s.snareTapped = false then [Event.snare] else [])) ∧
    Event.hit ∉ ((if 100 < kick ∧ s.kickTapped = false then [Event.kick] else []) ++
        (if snare = true ∧ s.snareTapped = false then [Event.snare] else [])) ∧
    Event.miss ∉ ((if 100 < kick ∧ s.kickTapped = false then [Event.kick] else []) ++
        (if snare = true ∧ s.snareTapped = false then [Event.snare] else [])) := by
  refine ⟨(detectTaps_closed s kick snare hq).1, (detectTaps_closed s kick snare hq).2, ?_, ?_⟩
  · split_ifs <;> simp
  · split_ifs <;> simp

/-- C14 in the initial state with both sensors struck: `kick` and `snare`
are broadcast and nothing is scored. -/
theorem detectTaps_no_window_witness :
    (detectTaps initState 500 true).hitCount = 0 ∧
    (detectTaps initState 500 true).sent = [Event.kick, Event.snare] :=
  ⟨(detectTaps_no_window initState 500 true rfl).1,
    (detectTaps_no_window initState 500 true rfl).2.1⟩

/-! ## C15: closing the cue window -/

theorem handleBeatCue_window_open (s : State) (now : Nat) (hq : s.cueActive = true) :
    handleBeatCue s now = some (closeCue s now) := by
  simp [handleBeatCue, openCue, hq]

/-- C15: with a cue window open, `handleBeatCue` at time `now` compares the
unsigned difference `now - cueStartTime` with the cue duration of 200: from
200 on it closes the window and broadcasts `miss` exactly when neither latch
is set; below 200 it leaves the state as it is.  It never changes `hitCount`
or `currentBeat`.  For readings `cueStartTime ≤ now < 2^32` the unsigned
difference is the plain difference. -/
theorem handleBeatCue_closes (s : State) (now : Nat) (hq : s.cueActive = true) :
    ∃ s1, handleBeatCue s now = some s1 ∧
      s1.hitCount = s.hitCount ∧ s1.currentBeat = s.currentBeat ∧
      (200 ≤ elapsed now s.cueStartTime →
        s1.cueActive = false ∧
        (s.kickTapped = false ∧ s.snareTapped = false → s1.sent = s.sent ++ [Event.miss]) ∧
        (¬ (s.kickTapped = false ∧ s.snareTapped = false) → s1.sent = s.sent)) ∧
      (elapsed now s.cueStartTime < 200 → s1 = s) ∧
      (s.cueStartTime ≤ now → now < 4294967296 →
        elapsed now s.cueStartTime = (now : Int) - (s.cueStartTime : Int)) := by
  rw [handleBeatCue_window_open s now hq]
  have hu : toUnsigned cueDuration = 200 := by decide
  refine ⟨_, rfl, ?_, ?_, ?_, ?_, ?_⟩
  · simp only [closeCue]
    split_ifs <;> rfl
  · simp only [closeCue]
    split_ifs <;> rfl
  · intro h
    have hc : s.cueActive = true ∧ toUnsigned cueDuration ≤ elapsed now s.cueStartTime :=
      ⟨hq, by rw [hu]; exact h⟩
    simp only [closeCue, if_pos hc]
    refine ⟨?_, ?_, ?_⟩
    · split_ifs <;> rfl
    · intro hl
      rw [if_pos hl]
    · intro hl
      rw [if_neg hl]
  · intro h
    have hc : ¬ (s.cueActive = true ∧ toUnsigned cueDuration ≤ elapsed now s.cueStartTime) := by
      rw [hu]
      rintro ⟨_, h2⟩
      omega
    simp only [closeCue, if_neg hc]
  · intro h1 h2
    unfold elapsed
    omega

/-- C15 on a window opened at 1500 ms with no tap: at 1700 ms it is closed
with a `miss`, at 1699 ms nothing happens. -/
theorem handleBeatCue_closes_witness :
    (∃ s1, handleBeatCue openWindow 1700 = some s1 ∧ s1.cueActive = false ∧
      s1.sent = [Event.miss] ∧ s1.hitCount = 2 ∧ s1.currentBeat = 3) ∧
    handleBeatCue openWindow 1699 = some openWindow := by
  constructor
  · obtain ⟨s1, he, hh, hc, hclose, _, _⟩ := handleBeatCue_closes openWindow 1700 rfl
    obtain ⟨hq, hmiss, _⟩ := hclose (by decide)
    exact ⟨s1, he, hq, hmiss ⟨rfl, rfl⟩, hh, hc⟩
  · obtain ⟨s1, he, _, _, _, hopen, _⟩ := handleBeatCue_closes openWindow 1699 rfl
    rw [he, hopen (by decide)]

/-! ## C16: the latches at session start -/

/-- C16, as stated, fails: `startSession` run with the kick latch set leaves
it set, and a kick struck before the first cue window of the new session
broadcasts nothing. -/
theorem start_latches_counterexample :
    staleLatch.kickTapped = true ∧
    ∃ s1, startSession staleLatch 5000 = some s1 ∧ s1.kickTapped = true ∧
      s1.cueActive = false ∧ (detectTaps s1 500 false).sent = s1.sent := by
  exact ⟨rfl, _, rfl, rfl, rfl, rfl⟩

/-- C16 amended: `startSession` (tempo not zero) leaves both channel latches
as they were, and a strike before the first cue window of the new session
produces its raw `kick` or `snare` event exactly when the latch of that
channel was clear when `startSession` ran. -/
theorem start_keeps_latches (s : State) (clock : Nat) (hb : s.bpm ≠ 0) :
    ∃ s1, startSession s clock = some s1 ∧
      s1.kickTapped = s.kickTapped ∧ s1.snareTapped = s.snareTapped ∧
      (∀ kick : Int, 100 < kick →
        (detectTaps s1 kick false).sent =
          s1.sent ++ (if s.kickTapped = false then [Event.kick] else [])) ∧
      (detectTaps s1 0 true).sent =
        s1.sent ++ (if s.snareTapped = false then [Event.snare] else []) := by
  rw [startSession_eq s clock hb]
  refine ⟨_, rfl, rfl, rfl, ?_, ?_⟩
  · intro kick hk
    rw [(detectTaps_closed _ kick false rfl).2]
    simp [hk]
  · rw [(detectTaps_closed _ 0 true rfl).2]
    simp

/-- C16 amended, with the kick latch set and the snare latch clear: the
snare strike is broadcast, the kick strike is not. -/
theorem start_keeps_latches_witness :
    ∃ s1, startSession staleLatch 5000 = some s1 ∧
      s1.kickTapped = true ∧ s1.snareTapped = false ∧
      (detectTaps s1 500 false).sent = s1.sent ∧
      (detectTaps s1 0 true).sent = s1.sent ++ [Event.snare] := by
  obtain ⟨s1, he, hk, hs, hkick, hsnare⟩ := start_keeps_latches staleLatch 5000 (by decide)
  refine ⟨s1, he, hk, hs, ?_, ?_⟩
  · rw [hkick 500 (by decide)]
    simp [staleLatch]
  · rw [hsnare]
    simp [staleLatch, initState]

/-! ## C17: the catalog invariant -/

/-- C17: in every reachable state `currentLevelIndex` lies in 0..2 and
`selectedLevel` is the catalog entry at that index; hence `endSession` run in
such a state completes (its array read is in bounds), and so does the message
handler on every message that does not make the tempo zero. -/
theorem catalog_invariant (s : State) (hr : Reachable s) :
    0 ≤ s.currentLevelIndex ∧ s.currentLevelIndex ≤ 2 ∧
    levelAt s.currentLevelIndex = some s.selectedLevel ∧
    (∃ s1, endSession s = some s1) ∧
    (∀ doc : Msg, doc.bpm.getD s.bpm ≠ 0 →
      ∃ s1, handleWebSocketEvent s (WsEvent.text (some doc)) = some s1) := by
  obtain ⟨_, _, h0, hl⟩ := reachable_configInv s hr
  have h2 : s.currentLevelIndex ≤ 2 := by
    rcases levelAt_cases _ _ hl with ⟨hi, _⟩ | ⟨hi, _⟩ | ⟨hi, _⟩ <;> omega
  obtain ⟨s1, he, _⟩ := endSession_frame s h0
  refine ⟨h0, h2, hl, ⟨s1, he⟩, ?_⟩
  intro doc hb
  by_cases hc : doc.command = some "endSession"
  · exact ⟨s1, by simp only [handleWebSocketEvent, if_pos hc]; exact he⟩
  · exact ⟨_, handler_config_eq s doc hc hb⟩

/-- C17 in the state the message `rhythm = 7/4` leads to: index 2, third
catalog entry. -/
theorem catalog_invariant_witness :
    Reachable lastSelected ∧ lastSelected.currentLevelIndex ≤ 2 ∧
    levelAt 2 = some lastSelected.selectedLevel := by
  have hr : Reachable lastSelected :=
    Reachable.message initState (WsEvent.text (some (rhythmOnly "7/4"))) lastSelected
      Reachable.init rfl
  exact ⟨hr, (catalog_invariant lastSelected hr).2.1, (catalog_invariant lastSelected hr).2.2.1⟩

/-! ## C19: the `endSession` command received twice -/

/-- C19: after a session with 18 hits of 20 on the first variant, one
`endSession` command selects the second variant and a second one, received
while the controller is idle, runs the progression again on the same tally
and selects the third: two deliveries do not leave the selection of one. -/
theorem end_twice_levels_up_twice :
    ∃ s1 s2, handleWebSocketEvent (demoState 18 20) (WsEvent.text (some endCommand)) = some s1 ∧
      s1.sessionState = SessionState.WAITING_FOR_CONFIG ∧
      handleWebSocketEvent s1 (WsEvent.text (some endCommand)) = some s2 ∧
      s1.currentLevelIndex = 1 ∧ s1.selectedLevel = ⟨3, "3/4"⟩ ∧
      s2.currentLevelIndex = 2 ∧ s2.selectedLevel = ⟨6, "7/4"⟩ := by
  refine ⟨{ demoState 18 20 with
      currentLevelIndex := 1
      selectedLevel := ⟨3, "3/4"⟩
      sent := [Event.endSummary 18 20 (FloatVal.fin 90), Event.levelUp] },
    { demoState 18 20 with
      currentLevelIndex := 2
      selectedLevel := ⟨6, "7/4"⟩
      sent := [Event.endSummary 18 20 (FloatVal.fin 90), Event.levelUp,
        Event.endSummary 18 20 (FloatVal.fin 90), Event.levelUp] },
    by decide!, rfl, by decide!, rfl, rfl, rfl, rfl⟩

/-- What a repeated `endSession` command does in general: `endSession` has
no guard on the session state and never changes the tally, so the second
delivery runs the progression on it again; it leaves the selection unchanged
when the accuracy is below the target or the selected variant is the last
one, and otherwise moves it one entry further. -/
theorem endCommand_again (s : State) (h0 : 0 ≤ s.currentLevelIndex) :
    ∃ s1 s2, handleWebSocketEvent s (WsEvent.text (some endCommand)) = some s1 ∧
      handleWebSocketEvent s1 (WsEvent.text (some endCommand)) = some s2 ∧
      s1.sessionState = SessionState.WAITING_FOR_CONFIG ∧
      s1.hitCount = s.hitCount ∧ s1.totalBeats = s.totalBeats ∧
      s1.targetAccuracy = s.targetAccuracy ∧
      ((FloatVal.div (s.hitCount * 100) s.totalBeats).ge s.targetAccuracy = false ∨
          2 ≤ s1.currentLevelIndex →
        s2.currentLevelIndex = s1.currentLevelIndex ∧ s2.selectedLevel = s1.selectedLevel) ∧
      ((FloatVal.div (s.hitCount * 100) s.totalBeats).ge s.targetAccuracy = true ∧
          s1.currentLevelIndex < 2 →
        s2.currentLevelIndex = s1.currentLevelIndex + 1 ∧
        levelAt (s1.currentLevelIndex + 1) = some s2.selectedLevel) := by
  have hhand : ∀ t u : State, endSession t = some u →
      handleWebSocketEvent t (WsEvent.text (some endCommand)) = some u := by
    intro t u h
    have hcmd : endCommand.command = some "endSession" := rfl
    simp only [handleWebSocketEvent, if_pos hcmd]
    exact h
  obtain ⟨s1, he, _, ha, _, hh, _, ht, _, hst, _⟩ := endSession_frame s h0
  have h1 : 0 ≤ s1.currentLevelIndex := endSession_index_nonneg s s1 h0 he
  have hacc : FloatVal.div (s1.hitCount * 100) s1.totalBeats =
      FloatVal.div (s.hitCount * 100) s.totalBeats := by rw [hh, ht]
  by_cases hc : (FloatVal.div (s1.hitCount * 100) s1.totalBeats).ge s1.targetAccuracy = true ∧
      s1.currentLevelIndex < 2
  · obtain ⟨l, hl⟩ := levelAt_succ_some s1.currentLevelIndex h1 hc.2
    have h2e := endSession_levelUp_eq s1 l hc.1 hc.2 hl
    have hkeep : (FloatVal.div (s.hitCount * 100) s.totalBeats).ge s.targetAccuracy = false ∨
        2 ≤ s1.currentLevelIndex → False := by
      intro hor
      rw [hacc, ha] at hc
      rcases hor with hf | hf
      · rw [hf] at hc
        exact absurd hc.1 (by decide)
      · omega
    exact ⟨s1, _, hhand _ _ he, hhand _ _ h2e, hst, hh, ht, ha,
      fun hor => (hkeep hor).elim, fun _ => ⟨rfl, hl⟩⟩
  · have h2e := endSession_retry_eq s1 hc
    rw [hacc, ha] at hc
    exact ⟨s1, _, hhand _ _ he, hhand _ _ h2e, hst, hh, ht, ha,
      fun _ => ⟨rfl, rfl⟩, fun hand => absurd hand hc⟩

/-! ## C20: the pass that starts a session -/

/-- C20: in the pass that starts a session, with the clock read as 1000 at
the top of the pass and as 1001 in `startSession`, the unsigned difference
`1000 - 1001` is `2^32 - 1`, not below the beat interval of 500: beat 1 is
cued in that same pass.  With both readings equal no beat is cued. -/
theorem start_pass_cues_beat :
    waltzReady.sessionState = SessionState.READY_TO_START ∧
    elapsed 1000 1001 = 4294967295 ∧
    (loopBody waltzReady 1000 1001 0 false).map
        (fun s => (s.beatInterval, s.currentBeat, beatsOf s.sent)) =
      some (500, 1, [(1, 15)]) ∧
    (loopBody waltzReady 1000 1000 0 false).map
        (fun s => (s.beatInterval, s.currentBeat, beatsOf s.sent)) =
      some (500, 0, []) := by
  refine ⟨rfl, by decide, by rfl, by rfl⟩

/-! ## C18: the tally invariant -/

theorem windowCredit_nonneg (s : State) : 0 ≤ windowCredit s := by
  unfold windowCredit
  split_ifs <;> decide

theorem endSession_fields (s s1 : State) (he : endSession s = some s1) :
    s1.hitCount = s.hitCount ∧ s1.currentBeat = s.currentBeat ∧
    s1.totalBeats = s.totalBeats ∧ s1.cueActive = false ∧
    s1.kickTapped = s.kickTapped ∧ s1.snareTapped = s.snareTapped ∧
    s1.sessionState = SessionState.WAITING_FOR_CONFIG ∧
    ∃ outcome, s1.sent = s.sent ++ [Event.endSummary s.hitCount s.totalBeats
      (FloatVal.div (s.hitCount * 100) s.totalBeats), outcome] := by
  by_cases hc : (FloatVal.div (s.hitCount * 100) s.totalBeats).ge s.targetAccuracy = true ∧
      s.currentLevelIndex < 2
  · cases hl : levelAt (s.currentLevelIndex + 1) with
    | none =>
      have hc1 : (FloatVal.div (s.hitCount * 100) s.totalBeats).ge s.targetAccuracy = true ∧
          s.currentLevelIndex < ((levels.length : Nat) : Int) - 1 := by
        refine ⟨hc.1, ?_⟩
        simpa [levels] using hc.2
      simp only [endSession, if_pos hc1, hl] at he
      exact absurd he (by simp)
    | some l =>
      rw [endSession_levelUp_eq s l hc.1 hc.2 hl, Option.some.injEq] at he
      subst he
      exact ⟨rfl, rfl, rfl, rfl, rfl, rfl, rfl, _, rfl⟩
  · rw [endSession_retry_eq s hc, Option.some.injEq] at he
    subst he
    exact ⟨rfl, rfl, rfl, rfl, rfl, rfl, rfl, _, rfl⟩

theorem handler_config_tally (s : State) (doc : Msg) (hc : doc.command ≠ some "endSession")
    (hb : doc.bpm.getD s.bpm ≠ 0) :
    ∃ s1, handleWebSocketEvent s (WsEvent.text (some doc)) = some s1 ∧
      s1.hitCount = s.hitCount ∧ s1.currentBeat = s.currentBeat ∧
      s1.totalBeats = s.totalBeats ∧ s1.cueActive = s.cueActive ∧
      s1.kickTapped = s.kickTapped ∧ s1.snareTapped = s.snareTapped ∧
      s1.sessionState = SessionState.READY_TO_START := by
  rw [handler_config_eq s doc hc hb]
  refine ⟨_, rfl, ?_⟩
  cases findLevel (doc.rhythm.getD s.selectedLevel.name) levels 0 with
  | none => exact ⟨rfl, rfl, rfl, rfl, rfl, rfl, rfl⟩
  | some p => exact ⟨rfl, rfl, rfl, rfl, rfl, rfl, rfl⟩

theorem tallyInv_init : TallyInv initState := by
  refine ⟨by decide, by decide, by decide, by decide, ?_⟩
  intro h
  exact absurd h (by decide)

theorem endSession_tallyInv (s s1 : State) (h : TallyInv s) (he : endSession s = some s1) :
    TallyInv s1 := by
  obtain ⟨hh, hc, ht, hq, _, _, hst, _⟩ := endSession_fields s s1 he
  obtain ⟨i1, i2, i3, i4, _⟩ := h
  have hw := windowCredit_nonneg s
  have hw1 : windowCredit s1 = 0 := by simp [windowCredit, hq]
  refine ⟨by rw [hh]; exact i1, by rw [hh, hc, hw1]; omega, by rw [hc]; exact i3,
    by rw [hc, ht]; exact i4, ?_⟩
  intro hp
  rw [hst] at hp
  exact absurd hp (by decide)

theorem handler_tallyInv (s s1 : State) (e : WsEvent) (h : TallyInv s)
    (he : handleWebSocketEvent s e = some s1) : TallyInv s1 := by
  cases e with
  | other =>
    simp only [handleWebSocketEvent, Option.some.injEq] at he
    subst he; exact h
  | text payload =>
    cases payload with
    | none =>
      simp only [handleWebSocketEvent, Option.some.injEq] at he
      subst he; exact h
    | some doc =>
      by_cases hc : doc.command = some "endSession"
      · simp only [handleWebSocketEvent, if_pos hc] at he
        exact endSession_tallyInv s s1 h he
      · by_cases hb : doc.bpm.getD s.bpm = 0
        · rw [handler_bpm_zero s doc hc hb] at he
          exact absurd he (by simp)
        · obtain ⟨t, ht, f1, f2, f3, f4, f5, f6, f7⟩ := handler_config_tally s doc hc hb
          rw [ht, Option.some.injEq] at he
          subst he
          obtain ⟨i1, i2, i3, i4, _⟩ := h
          have hw : windowCredit t = windowCredit s := by
            simp only [windowCredit, f4, f5, f6]
          refine ⟨by rw [f1]; exact i1, by rw [f1, f2, hw]; exact i2, by rw [f2]; exact i3,
            by rw [f2, f3]; exact i4, ?_⟩
          intro hp
          rw [f7] at hp
          exact absurd hp (by decide)

theorem startSession_tallyInv (s s1 : State) (clock : Nat) (h : ConfigInv s)
    (he : startSession s clock = some s1) : TallyInv s1 := by
  rw [startSession_eq s clock h.1, Option.some.injEq] at he
  subst he
  have hpos : 0 < s.selectedLevel.beatsPerMeasure * NUM_CYCLES := by
    rcases levelAt_cases _ _ h.2.2.2 with ⟨_, hl⟩ | ⟨_, hl⟩ | ⟨_, hl⟩ <;>
      rw [hl] <;> decide
  refine ⟨le_refl _, ?_, le_refl _, ?_, fun _ => hpos⟩
  · simp [windowCredit]
  · exact le_of_lt hpos

theorem closeCue_tallyInv (s : State) (now : Nat) (h : TallyInv s) :
    TallyInv (closeCue s now) := by
  obtain ⟨i1, i2, i3, i4, i5⟩ := h
  have hw := windowCredit_nonneg s
  simp only [closeCue]
  split_ifs
  · exact ⟨i1, by simp only [windowCredit]; simp; omega, i3, i4, i5⟩
  · exact ⟨i1, by simp only [windowCredit]; simp; omega, i3, i4, i5⟩
  · exact ⟨i1, i2, i3, i4, i5⟩

theorem kickTap_tallyInv (s : State) (kick : Int) (h : TallyInv s) :
    TallyInv (kickTap s kick) := by
  obtain ⟨i1, i2, i3, i4, i5⟩ := h
  simp only [kickTap]
  split_ifs with h1 h2
  · refine ⟨by show 0 ≤ s.hitCount + 1; omega, ?_, i3, i4, i5⟩
    simp only [windowCredit, h2, h1.2] at i2 ⊢
    simp at i2 ⊢
    omega
  · refine ⟨i1, ?_, i3, i4, i5⟩
    simp only [windowCredit, h2] at i2 ⊢
    simpa using i2
  · exact ⟨i1, i2, i3, i4, i5⟩

theorem snareTap_tallyInv (s : State) (snare : Bool) (h : TallyInv s) :
    TallyInv (snareTap s snare) := by
  obtain ⟨i1, i2, i3, i4, i5⟩ := h
  simp only [snareTap]
  split_ifs with h1 h2
  · refine ⟨by show 0 ≤ s.hitCount + 1; omega, ?_, i3, i4, i5⟩
    simp only [windowCredit, h2, h1.2] at i2 ⊢
    simp at i2 ⊢
    omega
  · refine ⟨i1, ?_, i3, i4, i5⟩
    simp only [windowCredit, h2] at i2 ⊢
    simpa using i2
  · exact ⟨i1, i2, i3, i4, i5⟩

theorem openCue_tallyInv (s s1 : State) (now : Nat) (h : TallyInv s)
    (hp : s.sessionState = SessionState.IN_PROGRESS) (he : openCue s now = some s1) :
    TallyInv s1 := by
  obtain ⟨i1, i2, i3, i4, i5⟩ := h
  have hw := windowCredit_nonneg s
  have hlt := i5 hp
  simp only [openCue] at he
  split_ifs at he with h1 h2
  · obtain ⟨hh, hc, ht, hq, _, _, hst, _⟩ := endSession_fields _ s1 he
    have hw1 : windowCredit s1 = 0 := by simp [windowCredit, hq]
    simp only at hh hc ht
    refine ⟨by rw [hh]; exact i1, by rw [hh, hc, hw1]; omega, by rw [hc]; omega,
      by rw [hc, ht]; omega, ?_⟩
    intro hp1
    rw [hst] at hp1
    exact absurd hp1 (by decide)
  · simp only [Option.some.injEq] at he
    subst he
    simp only at h2
    refine ⟨i1, ?_, by show 0 ≤ s.currentBeat + 1; omega,
      by show s.currentBeat + 1 ≤ s.totalBeats; omega,
      fun _ => by show s.currentBeat + 1 < s.totalBeats; omega⟩
    simp only [windowCredit]
    simp
    omega
  · simp only [Option.some.injEq] at he
    subst he
    exact ⟨i1, i2, i3, i4, i5⟩

theorem detectTaps_tallyInv (s : State) (kick : Int) (snare : Bool) (h : TallyInv s) :
    TallyInv (detectTaps s kick snare) :=
  snareTap_tallyInv _ snare (kickTap_tallyInv s kick h)

theorem loopBody_tallyInv (s s1 : State) (now clock : Nat) (kick : Int) (snare : Bool)
    (hc : ConfigInv s) (h : TallyInv s) (he : loopBody s now clock kick snare = some s1) :
    TallyInv s1 := by
  have key : ∀ t : State, TallyInv t →
      (if t.sessionState = SessionState.IN_PROGRESS then
        (handleBeatCue t now).map (fun s2 => detectTaps s2 kick snare)
      else some t) = some s1 → TallyInv s1 := by
    intro t ht hr
    split_ifs at hr with hp
    · cases ho : openCue t now with
      | none => simp [handleBeatCue, ho] at hr
      | some u =>
        simp only [handleBeatCue, ho, Option.map_some', Option.some.injEq] at hr
        subst hr
        exact detectTaps_tallyInv _ kick snare
          (closeCue_tallyInv u now (openCue_tallyInv t u now ht hp ho))
    · simp only [Option.some.injEq] at hr
      subst hr; exact ht
  unfold loopBody at he
  split_ifs at he with hr
  · cases hs : startSession s clock with
    | none => rw [hs] at he; exact absurd he (by simp)
    | some t =>
      rw [hs] at he
      exact key t (startSession_tallyInv s t clock hc hs) he
  · exact key s h he

theorem reachable_tallyInv (s : State) (h : Reachable s) : TallyInv s := by
  induction h with
  | init => exact tallyInv_init
  | message s e s1 _ he ih => exact handler_tallyInv s s1 e ih he
  | pass s now clock kick snare s1 hr he ih =>
    exact loopBody_tallyInv s s1 now clock kick snare (reachable_configInv s hr) ih he

/-- C18: in every reachable state `0 ≤ hitCount ≤ 2 * currentBeat` and
`0 ≤ currentBeat ≤ totalBeats`, with `currentBeat < totalBeats` whenever the
session is in progress; and when the scheduler ends a session (a
`handleBeatCue` that takes the controller from `IN_PROGRESS` to
`WAITING_FOR_CONFIG`) it does so on cueing the last beat, and the end summary
carries the `hitCount` of before, at most `2 * (totalBeats - 1)`. -/
theorem tally_invariant (s : State) (hr : Reachable s) :
    0 ≤ s.hitCount ∧ s.hitCount ≤ 2 * s.currentBeat ∧
    0 ≤ s.currentBeat ∧ s.currentBeat ≤ s.totalBeats ∧
    (s.sessionState = SessionState.IN_PROGRESS → s.currentBeat < s.totalBeats) ∧
    (∀ (now : Nat) (s1 : State), s.sessionState = SessionState.IN_PROGRESS →
      handleBeatCue s now = some s1 →
      s1.sessionState = SessionState.WAITING_FOR_CONFIG →
      s.currentBeat + 1 = s.totalBeats ∧ s.hitCount ≤ 2 * (s.totalBeats - 1) ∧
      ∃ outcome, s1.sent = s.sent ++ [Event.beat s.totalBeats s.totalBeats,
        Event.endSummary s.hitCount s.totalBeats
          (FloatVal.div (s.hitCount * 100) s.totalBeats), outcome]) := by
  obtain ⟨i1, i2, i3, i4, i5⟩ := reachable_tallyInv s hr
  have hw := windowCredit_nonneg s
  refine ⟨i1, by omega, i3, i4, i5, ?_⟩
  intro now s1 hp he hend
  have hlt := i5 hp
  have hstay : ∀ t : State, t.sessionState = SessionState.IN_PROGRESS →
      (closeCue t now).sessionState ≠ SessionState.WAITING_FOR_CONFIG := by
    intro t ht
    obtain ⟨_, _, _, hs, _⟩ := closeCue_frame t now
    rw [hs, ht]
    decide
  cases ho : openCue s now with
  | none => simp [handleBeatCue, ho] at he
  | some u =>
    simp only [handleBeatCue, ho, Option.map_some', Option.some.injEq] at he
    subst he
    simp only [openCue] at ho
    split_ifs at ho with h1 h2
    · obtain ⟨_, _, _, hq, _, _, _, outcome, hsent⟩ := endSession_fields _ u ho
      simp only at h2 hsent
      have hT : s.currentBeat + 1 = s.totalBeats := by omega
      have hcl : closeCue u now = u := by simp [closeCue, hq]
      refine ⟨hT, by omega, outcome, ?_⟩
      rw [hcl, hsent, hT]
      simp
    · simp only [Option.some.injEq] at ho
      subst ho
      exact absurd hend (hstay _ hp)
    · simp only [Option.some.injEq] at ho
      subst ho
      exact absurd hend (hstay _ hp)

/-- C18 in the state after the pass that starts a session of 30 beats. -/
theorem tally_invariant_witness :
    Reachable afterStart ∧ afterStart.hitCount = 0 ∧ afterStart.currentBeat = 0 ∧
    afterStart.currentBeat < afterStart.totalBeats := by
  have hr : Reachable afterStart :=
    Reachable.pass lastSelected 1000 1000 0 false afterStart
      (Reachable.message initState (WsEvent.text (some (rhythmOnly "7/4"))) lastSelected
        Reachable.init rfl) rfl
  exact ⟨hr, rfl, rfl, (tally_invariant afterStart hr).2.2.2.2.1 rfl⟩

/-! ## C13: one hit per channel and window -/

theorem latchStep_refl (s : State) : LatchStep s s [] := by
  refine ⟨by simp, rfl, by simp, by simp, by simp, by simp, rfl, rfl⟩

theorem latchStep_trans (s t u : State) (e1 e2 : List Event)
    (h1 : LatchStep s t e1) (h2 : LatchStep t u e2) : LatchStep s u (e1 ++ e2) := by
  obtain ⟨a1, a2, a3, a4, a5, a6, a7, a8⟩ := h1
  obtain ⟨b1, b2, b3, b4, b5, b6, b7, b8⟩ := h2
  refine ⟨by rw [b1, a1, List.append_assoc], by rw [beatsOf_append, a2, b2]; rfl,
    ?_, ?_, ?_, ?_, by rw [b7, a7], by rw [b8, a8]⟩
  · rw [List.count_append]; omega
  · rw [List.count_append]; omega
  · rw [List.count_append, b5, a5]; push_cast; omega
  · simp only [List.count_append]; omega

theorem closeCue_latchStep (s : State) (now : Nat) :
    ∃ evs, LatchStep s (closeCue s now) evs := by
  simp only [closeCue]
  split_ifs
  · exact ⟨[Event.miss], rfl, rfl, by simp [kickCredit], by simp [snareCredit], by simp,
      by decide, rfl, rfl⟩
  · exact ⟨[], latchStep_refl _⟩
  · exact ⟨[], latchStep_refl _⟩

theorem kickTap_latchStep (s : State) (kick : Int) :
    ∃ evs, LatchStep s (kickTap s kick) evs := by
  simp only [kickTap]
  split_ifs with h1 h2
  · refine ⟨[Event.kick, Event.hit], by simp, rfl, ?_, ?_, ?_, by decide, rfl, rfl⟩
    · simp [kickCredit, h1.2]
    · simp [snareCredit]
    · simp
  · refine ⟨[Event.kick], rfl, rfl, ?_, ?_, ?_, by decide, rfl, rfl⟩
    · simp [kickCredit, h1.2]
    · simp [snareCredit]
    · simp
  · exact ⟨[], latchStep_refl _⟩

theorem snareTap_latchStep (s : State) (snare : Bool) :
    ∃ evs, LatchStep s (snareTap s snare) evs := by
  simp only [snareTap]
  split_ifs with h1 h2
  · refine ⟨[Event.snare, Event.hit], by simp, rfl, ?_, ?_, ?_, by decide, rfl, rfl⟩
    · simp [kickCredit]
    · simp [snareCredit, h1.2]
    · simp
  · refine ⟨[Event.snare], rfl, rfl, ?_, ?_, ?_, by decide, rfl, rfl⟩
    · simp [kickCredit]
    · simp [snareCredit, h1.2]
    · simp
  · exact ⟨[], latchStep_refl _⟩

theorem detectTaps_latchStep (s : State) (kick : Int) (snare : Bool) :
    ∃ evs, LatchStep s (detectTaps s kick snare) evs := by
  obtain ⟨e1, h1⟩ := kickTap_latchStep s kick
  obtain ⟨e2, h2⟩ := snareTap_latchStep (kickTap s kick) snare
  exact ⟨e1 ++ e2, latchStep_trans _ _ _ _ _ h1 h2⟩

/-- The first half of `handleBeatCue` in a session in progress completes,
and either broadcasts a `beat` or changes nothing. -/
theorem openCue_total (s : State) (now : Nat) (h0 : 0 ≤ s.currentLevelIndex)
    (hp : s.sessionState = SessionState.IN_PROGRESS) :
    ∃ a ea, openCue s now = some a ∧ a.sent = s.sent ++ ea ∧
      0 ≤ a.currentLevelIndex ∧ a.sessionState ≠ SessionState.READY_TO_START ∧
      (beatsOf ea = [] → a = s ∧ ea = []) := by
  simp only [openCue]
  split_ifs with h1 h2
  · obtain ⟨a, he, _, _, _, _, _, _, _, hst, outcome, _, hsent⟩ := endSession_frame
      { s with
        cueActive := true
        cueStartTime := now
        lastBeatTime := now
        kickTapped := false
        snareTapped := false
        currentBeat := s.currentBeat + 1
        sent := s.sent ++ [Event.beat (s.currentBeat + 1) s.totalBeats] } h0
    have hi := endSession_index_nonneg _ a (by exact h0) he
    refine ⟨a, [Event.beat (s.currentBeat + 1) s.totalBeats,
        Event.endSummary s.hitCount s.totalBeats (FloatVal.div (s.hitCount * 100) s.totalBeats),
        outcome], he, ?_, hi, ?_, ?_⟩
    · rw [hsent]
      simp only [List.append_assoc, List.singleton_append]
    · rw [hst]; decide
    · intro hb
      simp [beatsOf] at hb
  · refine ⟨_, [Event.beat (s.currentBeat + 1) s.totalBeats], rfl, rfl, h0, ?_, ?_⟩
    · show s.sessionState ≠ SessionState.READY_TO_START
      rw [hp]; decide
    · intro hb
      simp [beatsOf] at hb
  · refine ⟨s, [], rfl, by simp, h0, ?_, fun _ => ⟨rfl, rfl⟩⟩
    rw [hp]; decide

/-- One loop pass without inbound message, outside `READY_TO_START`,
completes, and is a `LatchStep` unless it cues a beat. -/
theorem loopBody_latchStep (s : State) (now clock : Nat) (kick : Int) (snare : Bool)
    (h0 : 0 ≤ s.currentLevelIndex) (hr : s.sessionState ≠ SessionState.READY_TO_START) :
    ∃ s1 evs, loopBody s now clock kick snare = some s1 ∧ s1.sent = s.sent ++ evs ∧
      0 ≤ s1.currentLevelIndex ∧ s1.sessionState ≠ SessionState.READY_TO_START ∧
      (beatsOf evs = [] → LatchStep s s1 evs) := by
  by_cases hp : s.sessionState = SessionState.IN_PROGRESS
  · obtain ⟨a, ea, ha, hsa, hia, hra, hquiet⟩ := openCue_total s now h0 hp
    obtain ⟨e2, h2⟩ := closeCue_latchStep a now
    obtain ⟨e3, h3⟩ := detectTaps_latchStep (closeCue a now) kick snare
    have h23 := latchStep_trans _ _ _ _ _ h2 h3
    refine ⟨detectTaps (closeCue a now) kick snare, ea ++ (e2 ++ e3), ?_, ?_, ?_, ?_, ?_⟩
    · rw [loopBody_inProgress s now clock kick snare hp]
      simp [handleBeatCue, ha]
    · rw [h23.1, hsa, List.append_assoc]
    · rw [h23.2.2.2.2.2.2.2]; exact hia
    · rw [h23.2.2.2.2.2.2.1]; exact hra
    · intro hb
      rw [beatsOf_append] at hb
      obtain ⟨hsame, hnil⟩ := hquiet (List.append_eq_nil.mp hb).1
      rw [hnil, List.nil_append, ← hsame]
      exact h23
  · have hw : s.sessionState = SessionState.WAITING_FOR_CONFIG := by
      cases hs : s.sessionState with
      | WAITING_FOR_CONFIG => rfl
      | READY_TO_START => exact absurd hs hr
      | IN_PROGRESS => exact absurd hs hp
    exact ⟨s, [], loopBody_waiting s now clock kick snare hw, by simp, h0, hr,
      fun _ => latchStep_refl s⟩

theorem runPasses_latchStep (s0 : State) (passes : List PassInput) :
    ∀ (s : State) (pre : List Event), s.sent = s0.sent ++ pre → 0 ≤ s.currentLevelIndex →
      s.sessionState ≠ SessionState.READY_TO_START →
      (beatsOf pre = [] → LatchStep s0 s pre) →
      ∃ sf evs, runPasses s passes = some sf ∧ sf.sent = s0.sent ++ evs ∧
        (beatsOf evs = [] → LatchStep s0 sf evs) := by
  induction passes with
  | nil =>
    intro s pre hs _ _ hl
    exact ⟨s, pre, rfl, hs, hl⟩
  | cons p ps ih =>
    intro s pre hs h0 hr hl
    obtain ⟨s1, e1, hb, hs1, h01, hr1, hl1⟩ :=
      loopBody_latchStep s p.now p.clock p.kick p.snare h0 hr
    obtain ⟨sf, evs, hrun, hsf, hlf⟩ := ih s1 (pre ++ e1)
      (by rw [hs1, hs, List.append_assoc]) h01 hr1
      (by
        intro hq
        rw [beatsOf_append] at hq
        obtain ⟨q1, q2⟩ := List.append_eq_nil.mp hq
        exact latchStep_trans _ _ _ _ _ (hl q1) (hl1 q2))
    refine ⟨sf, evs, ?_, hsf, hlf⟩
    simp [runPasses, loop, drain, hb, hrun]

theorem kickTap_snareTapped (s : State) (kick : Int) :
    (kickTap s kick).snareTapped = s.snareTapped := by
  simp only [kickTap]
  split_ifs <;> rfl

theorem kickTap_latched (s : State) (kick : Int) (h : s.kickTapped = true) :
    kickTap s kick = s := by
  simp [kickTap, h]

theorem snareTap_latched (s : State) (snare : Bool) (h : s.snareTapped = true) :
    snareTap s snare = s := by
  simp [snareTap, h]

theorem snareTap_kickTapped (s : State) (snare : Bool) :
    (snareTap s snare).kickTapped = s.kickTapped := by
  simp only [snareTap]
  split_ifs <;> rfl

theorem kickTap_keeps_latch (s : State) (kick : Int) (h : s.kickTapped = true) :
    (kickTap s kick).kickTapped = true := by
  rw [kickTap_latched s kick h]; exact h

theorem snareTap_keeps_latch (s : State) (snare : Bool) (h : s.snareTapped = true) :
    (snareTap s snare).snareTapped = true := by
  rw [snareTap_latched s snare h]; exact h

theorem closeCue_latches (s : State) (now : Nat) :
    (closeCue s now).kickTapped = s.kickTapped ∧
    (closeCue s now).snareTapped = s.snareTapped ∧
    (closeCue s now).currentBeat = s.currentBeat := by
  simp only [closeCue]
  split_ifs <;> exact ⟨rfl, rfl, rfl⟩

theorem handler_latches (s s1 : State) (e : WsEvent)
    (he : handleWebSocketEvent s e = some s1) :
    s1.kickTapped = s.kickTapped ∧ s1.snareTapped = s.snareTapped := by
  cases e with
  | other =>
    simp only [handleWebSocketEvent, Option.some.injEq] at he
    subst he; exact ⟨rfl, rfl⟩
  | text payload =>
    cases payload with
    | none =>
      simp only [handleWebSocketEvent, Option.some.injEq] at he
      subst he; exact ⟨rfl, rfl⟩
    | some doc =>
      by_cases hc : doc.command = some "endSession"
      · simp only [handleWebSocketEvent, if_pos hc] at he
        obtain ⟨_, _, _, _, hk, hs, _⟩ := endSession_fields s s1 he
        exact ⟨hk, hs⟩
      · by_cases hb : doc.bpm.getD s.bpm = 0
        · rw [handler_bpm_zero s doc hc hb] at he
          exact absurd he (by simp)
        · obtain ⟨t, ht, _, _, _, _, hk, hs, _⟩ := handler_config_tally s doc hc hb
          rw [ht, Option.some.injEq] at he
          subst he
          exact ⟨hk, hs⟩

theorem handleBeatCue_latches (s s1 : State) (now : Nat)
    (he : handleBeatCue s now = some s1) :
    (s1.kickTapped = s.kickTapped ∧ s1.snareTapped = s.snareTapped) ∨
    (s.cueActive = false ∧ toUnsigned s.beatInterval ≤ elapsed now s.lastBeatTime ∧
      s1.currentBeat = s.currentBeat + 1 ∧ s1.kickTapped = false ∧ s1.snareTapped = false) := by
  cases ho : openCue s now with
  | none => simp [handleBeatCue, ho] at he
  | some u =>
    simp only [handleBeatCue, ho, Option.map_some', Option.some.injEq] at he
    subst he
    obtain ⟨c1, c2, c3⟩ := closeCue_latches u now
    simp only [openCue] at ho
    split_ifs at ho with h1 h2
    · obtain ⟨_, hc, _, _, hk, hs, _⟩ := endSession_fields _ u ho
      exact Or.inr ⟨h1.1, h1.2, by rw [c3, hc], by rw [c1, hk], by rw [c2, hs]⟩
    · simp only [Option.some.injEq] at ho
      subst ho
      exact Or.inr ⟨h1.1, h1.2, c3, c1, c2⟩
    · simp only [Option.some.injEq] at ho
      subst ho
      exact Or.inl ⟨c1, c2⟩

/-- C13: (1) with the latch of a channel set, the branch of `detectTaps` for
that channel changes nothing: no increment of `hitCount`, no broadcast;
(2) the branch of a channel either changes nothing or sets the latch of the
channel and adds at most one to `hitCount`; (3) `detectTaps`, `startSession`
and the message handler (hence `endSession`) never clear a latch that is set,
and `handleBeatCue` changes a latch only when it opens a cue window, that is
when it takes `currentBeat` one further; (4) so over any sequence of loop
passes without inbound message in a session, as long as no `beat` is
broadcast, each channel broadcasts its raw event at most once, and not at all
if its latch was set, and `hitCount` grows by the number of `hit` events,
which is at most the number of raw events. -/
theorem latch_once :
    (∀ (s : State) (kick : Int) (snare : Bool),
      (s.kickTapped = true →
        kickTap s kick = s ∧ detectTaps s kick snare = snareTap s snare) ∧
      (s.snareTapped = true →
        snareTap s snare = s ∧ detectTaps s kick snare = kickTap s kick)) ∧
    (∀ (s : State) (kick : Int) (snare : Bool),
      (kickTap s kick = s ∨
        (s.kickTapped = false ∧ (kickTap s kick).kickTapped = true ∧
          (kickTap s kick).hitCount ≤ s.hitCount + 1)) ∧
      (snareTap s snare = s ∨
        (s.snareTapped = false ∧ (snareTap s snare).snareTapped = true ∧
          (snareTap s snare).hitCount ≤ s.hitCount + 1))) ∧
    (∀ (s : State) (kick : Int) (snare : Bool),
      (s.kickTapped = true → (detectTaps s kick snare).kickTapped = true) ∧
      (s.snareTapped = true → (detectTaps s kick snare).snareTapped = true)) ∧
    (∀ (s s1 : State) (clock : Nat), startSession s clock = some s1 →
      s1.kickTapped = s.kickTapped ∧ s1.snareTapped = s.snareTapped) ∧
    (∀ (s s1 : State) (e : WsEvent), handleWebSocketEvent s e = some s1 →
      s1.kickTapped = s.kickTapped ∧ s1.snareTapped = s.snareTapped) ∧
    (∀ (s s1 : State) (now : Nat), handleBeatCue s now = some s1 →
      (s1.kickTapped = s.kickTapped ∧ s1.snareTapped = s.snareTapped) ∨
      (s.cueActive = false ∧ toUnsigned s.beatInterval ≤ elapsed now s.lastBeatTime ∧
        s1.currentBeat = s.currentBeat + 1 ∧ s1.kickTapped = false ∧
        s1.snareTapped = false)) ∧
    (∀ (s : State) (passes : List PassInput),
      s.sessionState = SessionState.IN_PROGRESS → 0 ≤ s.currentLevelIndex →
      ∃ sf evs, runPasses s passes = some sf ∧ sf.sent = s.sent ++ evs ∧
        (beatsOf evs = [] →
          evs.count Event.kick ≤ kickCredit s ∧ evs.count Event.snare ≤ snareCredit s ∧
          sf.hitCount = s.hitCount + (evs.count Event.hit : Int) ∧
          evs.count Event.hit ≤ evs.count Event.kick + evs.count Event.snare)) := by
  refine ⟨?_, ?_, ?_, ?_, ?_, ?_, ?_⟩
  · intro s kick snare
    constructor
    · intro h
      exact ⟨kickTap_latched s kick h, by rw [detectTaps, kickTap_latched s kick h]⟩
    · intro h
      refine ⟨snareTap_latched s snare h, ?_⟩
      rw [detectTaps, snareTap_latched _ snare (by rw [kickTap_snareTapped]; exact h)]
  · intro s kick snare
    constructor
    · simp only [kickTap]
      split_ifs with h1 h2
      · exact Or.inr ⟨h1.2, rfl, le_refl _⟩
      · exact Or.inr ⟨h1.2, rfl, by show s.hitCount ≤ s.hitCount + 1; omega⟩
      · exact Or.inl rfl
    · simp only [snareTap]
      split_ifs with h1 h2
      · exact Or.inr ⟨h1.2, rfl, le_refl _⟩
      · exact Or.inr ⟨h1.2, rfl, by show s.hitCount ≤ s.hitCount + 1; omega⟩
      · exact Or.inl rfl
  · intro s kick snare
    constructor
    · intro h
      rw [detectTaps, snareTap_kickTapped]
      exact kickTap_keeps_latch s kick h
    · intro h
      rw [detectTaps]
      exact snareTap_keeps_latch _ snare (by rw [kickTap_snareTapped]; exact h)
  · intro s s1 clock he
    by_cases hb : s.bpm = 0
    · simp [startSession, hb] at he
    · rw [startSession_eq s clock hb, Option.some.injEq] at he
      subst he
      exact ⟨rfl, rfl⟩
  · intro s s1 e he
    exact handler_latches s s1 e he
  · intro s s1 now he
    exact handleBeatCue_latches s s1 now he
  · intro s passes hp h0
    obtain ⟨sf, evs, hrun, hsent, hl⟩ := runPasses_latchStep s passes s []
      (by simp) h0 (by rw [hp]; decide) (fun _ => latchStep_refl s)
    refine ⟨sf, evs, hrun, hsent, ?_⟩
    intro hb
    obtain ⟨_, _, l3, l4, l5, l6, _, _⟩ := hl hb
    exact ⟨by omega, by omega, l5, l6⟩

/-- C13 on an open window with the kick held down for four passes and the
snare high in two of them: one `kick`, one `snare`, two hits. -/
theorem latch_once_witness :
    (runPasses openWindow heldKick).map (fun sf => (sf.sent, sf.hitCount)) =
      some ([Event.kick, Event.hit, Event.snare, Event.hit], 4) ∧
    ∃ sf evs, runPasses openWindow heldKick = some sf ∧ sf.sent = openWindow.sent ++ evs ∧
      (beatsOf evs = [] → evs.count Event.kick ≤ 1 ∧ evs.count Event.snare ≤ 1) := by
  refine ⟨by rfl, ?_⟩
  obtain ⟨sf, evs, hrun, hsent, h⟩ := latch_once.2.2.2.2.2.2 openWindow heldKick rfl (by decide)
  exact ⟨sf, evs, hrun, hsent, fun hb => ⟨(h hb).1, (h hb).2.1⟩⟩

/-! ## C11: a strike on every cue -/

theorem summariesOf_append (a b : List Event) :
    summariesOf (a ++ b) = summariesOf a ++ summariesOf b := by
  simp [summariesOf, List.filterMap_append]

theorem outcomesOf_append (a b : List Event) :
    outcomesOf (a ++ b) = outcomesOf a ++ outcomesOf b := by
  simp [outcomesOf]

theorem quietStep_refl (s : State) : QuietStep s s [] :=
  ⟨by simp, rfl, rfl, rfl, rfl, rfl, rfl, rfl, rfl⟩

theorem quietStep_trans (s t u : State) (e1 e2 : List Event)
    (h1 : QuietStep s t e1) (h2 : QuietStep t u e2) : QuietStep s u (e1 ++ e2) := by
  obtain ⟨a1, a2, a3, a4, a5, a6, a7, a8, a9⟩ := h1
  obtain ⟨b1, b2, b3, b4, b5, b6, b7, b8, b9⟩ := h2
  exact ⟨by rw [b1, a1, List.append_assoc], by rw [summariesOf_append, a2, b2]; rfl,
    by rw [outcomesOf_append, a3, b3]; rfl, by rw [b4, a4], by rw [b5, a5], by rw [b6, a6],
    by rw [b7, a7], by rw [b8, a8], by rw [b9, a9]⟩

theorem closeCue_quiet (s : State) (now : Nat) :
    ∃ evs, QuietStep s (closeCue s now) evs ∧ (closeCue s now).hitCount = s.hitCount := by
  simp only [closeCue]
  split_ifs
  · exact ⟨[Event.miss], ⟨rfl, rfl, rfl, rfl, rfl, rfl, rfl, rfl, rfl⟩, rfl⟩
  · exact ⟨[], quietStep_refl _, rfl⟩
  · exact ⟨[], quietStep_refl _, rfl⟩

theorem kickTap_quiet (s : State) (kick : Int) :
    ∃ evs, QuietStep s (kickTap s kick) evs := by
  simp only [kickTap]
  split_ifs
  · exact ⟨[Event.kick, Event.hit], by simp, rfl, rfl, rfl, rfl, rfl, rfl, rfl, rfl⟩
  · exact ⟨[Event.kick], rfl, rfl, rfl, rfl, rfl, rfl, rfl, rfl, rfl⟩
  · exact ⟨[], quietStep_refl _⟩

theorem snareTap_quiet (s : State) (snare : Bool) :
    ∃ evs, QuietStep s (snareTap s snare) evs := by
  simp only [snareTap]
  split_ifs
  · exact ⟨[Event.snare, Event.hit], by simp, rfl, rfl, rfl, rfl, rfl, rfl, rfl, rfl⟩
  · exact ⟨[Event.snare], rfl, rfl, rfl, rfl, rfl, rfl, rfl, rfl, rfl⟩
  · exact ⟨[], quietStep_refl _⟩

/-- The second half of `handleBeatCue` followed by `detectTaps`. -/
theorem tail_quiet (a : State) (now : Nat) (kick : Int) (snare : Bool) :
    ∃ evs, QuietStep a (detectTaps (closeCue a now) kick snare) evs := by
  obtain ⟨e1, h1, _⟩ := closeCue_quiet a now
  obtain ⟨e2, h2⟩ := kickTap_quiet (closeCue a now) kick
  obtain ⟨e3, h3⟩ := snareTap_quiet (kickTap (closeCue a now) kick) snare
  exact ⟨e1 ++ (e2 ++ e3), quietStep_trans _ _ _ _ _ h1 (quietStep_trans _ _ _ _ _ h2 h3)⟩

theorem elapsed_self (now : Nat) : elapsed now now = 0 := by
  simp [elapsed]

/-- A kick in the pass that opened the window is scored. -/
theorem tail_hit (a : State) (now : Nat) (kick : Int) (hk : THRESHOLD < kick)
    (hq : a.cueActive = true) (hs : a.cueStartTime = now) (hl : a.kickTapped = false) :
    (detectTaps (closeCue a now) kick false).hitCount = a.hitCount + 1 := by
  have hc : closeCue a now = a := by
    have hu : ¬ (toUnsigned cueDuration ≤ elapsed now a.cueStartTime) := by
      rw [hs, elapsed_self]
      decide
    simp [closeCue, hu]
  rw [hc]
  simp [detectTaps, kickTap, snareTap, hk, hq, hl]

/-- Without a reading above the threshold nothing is scored. -/
theorem tail_silent (a : State) (now : Nat) (kick : Int) (hk : ¬ THRESHOLD < kick) :
    (detectTaps (closeCue a now) kick false).hitCount = a.hitCount := by
  obtain ⟨_, _, hh⟩ := closeCue_quiet a now
  rw [← hh]
  simp [detectTaps, kickTap, snareTap, hk]

/-- Everything `endSession` does, outcome included. -/
theorem endSession_outcome (s : State) (h0 : 0 ≤ s.currentLevelIndex) :
    ∃ a outcome, endSession s = some a ∧
      a.totalBeats = s.totalBeats ∧ a.targetAccuracy = s.targetAccuracy ∧
      a.sessionState = SessionState.WAITING_FOR_CONFIG ∧
      a.sent = s.sent ++ [Event.endSummary s.hitCount s.totalBeats
        (FloatVal.div (s.hitCount * 100) s.totalBeats), outcome] ∧
      ((FloatVal.div (s.hitCount * 100) s.totalBeats).ge s.targetAccuracy = true ∧
          s.currentLevelIndex < 2 →
        outcome = Event.levelUp ∧ a.currentLevelIndex = s.currentLevelIndex + 1 ∧
        levelAt (s.currentLevelIndex + 1) = some a.selectedLevel) ∧
      (¬ ((FloatVal.div (s.hitCount * 100) s.totalBeats).ge s.targetAccuracy = true ∧
          s.currentLevelIndex < 2) →
        outcome = Event.retry ∧ a.currentLevelIndex = s.currentLevelIndex ∧
        a.selectedLevel = s.selectedLevel) := by
  by_cases hc : (FloatVal.div (s.hitCount * 100) s.totalBeats).ge s.targetAccuracy = true ∧
      s.currentLevelIndex < 2
  · obtain ⟨l, hl⟩ := levelAt_succ_some s.currentLevelIndex h0 hc.2
    exact ⟨_, Event.levelUp, endSession_levelUp_eq s l hc.1 hc.2 hl, rfl, rfl, rfl, rfl,
      fun _ => ⟨rfl, rfl, hl⟩, fun hn => absurd hc hn⟩
  · exact ⟨_, Event.retry, endSession_retry_eq s hc, rfl, rfl, rfl, rfl,
      fun hp => absurd hp hc, fun _ => ⟨rfl, rfl, rfl⟩⟩

/-- One pass of a session in which the kick is struck exactly on the cue. -/
theorem struck_step (T : Int) (tgt : ℚ) (i0 : Int) (l0 : RhythmLevel) (s : State)
    (pre : List Event) (p : PassInput) (h0 : 0 ≤ i0)
    (hinv : StruckInv T tgt i0 l0 s pre)
    (hk : THRESHOLD < p.kick ↔ cuesBeat s p.now = true) (hsn : p.snare = false) :
    ∃ s1 e1, loopBody s p.now p.clock p.kick p.snare = some s1 ∧ s1.sent = s.sent ++ e1 ∧
      StruckInv T tgt i0 l0 s1 (pre ++ e1) := by
  obtain ⟨hT, htg, hcase⟩ := hinv
  rcases hcase with ⟨hp, hh, hlt, hi, hl, hsum, hout⟩ | ⟨hw, hfin⟩
  · rw [loopBody_inProgress s _ _ _ _ hp, hsn]
    by_cases hfire : s.cueActive = false ∧
        toUnsigned s.beatInterval ≤ elapsed p.now s.lastBeatTime
    · have hkick : THRESHOLD < p.kick := hk.mpr (by simp [cuesBeat, hp, hfire])
      by_cases hend : s.totalBeats ≤ s.currentBeat + 1
      · obtain ⟨a, outcome, he, a1, a2, a3, a4, a5, a6⟩ := endSession_outcome
          { s with
            cueActive := true
            cueStartTime := p.now
            lastBeatTime := p.now
            kickTapped := false
            snareTapped := false
            currentBeat := s.currentBeat + 1
            sent := s.sent ++ [Event.beat (s.currentBeat + 1) s.totalBeats] }
          (by show 0 ≤ s.currentLevelIndex; omega)
        simp only at a1 a2 a4 a5 a6
        have ho : openCue s p.now = some a := by
          simp only [openCue, if_pos hfire, if_pos hend]
          exact he
        obtain ⟨e, q1, q2, q3, q4, q5, q6, q7, q8, _⟩ := tail_quiet a p.now p.kick false
        have hcb : s.hitCount = T - 1 := by omega
        refine ⟨_, [Event.beat (s.currentBeat + 1) s.totalBeats,
            Event.endSummary s.hitCount s.totalBeats
              (FloatVal.div (s.hitCount * 100) s.totalBeats), outcome] ++ e, ?_, ?_,
          ⟨by rw [q4, a1]; exact hT, by rw [q5, a2]; exact htg, Or.inr ⟨by rw [q6]; exact a3, ?_⟩⟩⟩
        · simp [handleBeatCue, ho]
        · rw [q1, a4]
          simp only [List.append_assoc, List.singleton_append, List.cons_append,
            List.nil_append]
        · rw [hT, htg, hi, hcb] at a5 a6
          have hou : outcome = Event.levelUp ∨ outcome = Event.retry := by
            by_cases hc : (FloatVal.div ((T - 1) * 100) T).ge tgt = true ∧ i0 < 2
            · exact Or.inl (a5 hc).1
            · exact Or.inr (a6 hc).1
          have hs1 : summariesOf (pre ++ ([Event.beat (s.currentBeat + 1) s.totalBeats,
              Event.endSummary s.hitCount s.totalBeats
                (FloatVal.div (s.hitCount * 100) s.totalBeats), outcome] ++ e)) =
              [(T - 1, T, FloatVal.div ((T - 1) * 100) T)] := by
            rw [summariesOf_append, summariesOf_append, hsum, q2, hT, hcb]
            rcases hou with ho1 | ho1 <;> rw [ho1] <;> simp [summariesOf]
          have hs2 : outcomesOf (pre ++ ([Event.beat (s.currentBeat + 1) s.totalBeats,
              Event.endSummary s.hitCount s.totalBeats
                (FloatVal.div (s.hitCount * 100) s.totalBeats), outcome] ++ e)) =
              [outcome] := by
            rw [outcomesOf_append, outcomesOf_append, hout, q3]
            rcases hou with ho1 | ho1 <;> rw [ho1] <;> simp [outcomesOf]
          refine ⟨hs1, ?_, ?_⟩
          · intro hc
            obtain ⟨c1, c2, c3⟩ := a5 hc
            refine ⟨by rw [hs2, c1], by rw [q7]; exact c2, by rw [q8]; exact c3⟩
          · intro hc
            obtain ⟨c1, c2, c3⟩ := a6 hc
            refine ⟨by rw [hs2, c1], by rw [q7]; exact c2, by rw [q8, c3]; exact hl⟩
      · have ho : openCue s p.now = some
            { s with
              cueActive := true
              cueStartTime := p.now
              lastBeatTime := p.now
              kickTapped := false
              snareTapped := false
              currentBeat := s.currentBeat + 1
              sent := s.sent ++ [Event.beat (s.currentBeat + 1) s.totalBeats] } := by
          simp only [openCue, if_pos hfire, if_neg hend]
        obtain ⟨e, q1, q2, q3, q4, q5, q6, q7, q8, q9⟩ := tail_quiet
          { s with
            cueActive := true
            cueStartTime := p.now
            lastBeatTime := p.now
            kickTapped := false
            snareTapped := false
            currentBeat := s.currentBeat + 1
            sent := s.sent ++ [Event.beat (s.currentBeat + 1) s.totalBeats] } p.now p.kick false
        have hhit := tail_hit
          { s with
            cueActive := true
            cueStartTime := p.now
            lastBeatTime := p.now
            kickTapped := false
            snareTapped := false
            currentBeat := s.currentBeat + 1
            sent := s.sent ++ [Event.beat (s.currentBeat + 1) s.totalBeats] } p.now p.kick
          hkick rfl rfl rfl
        simp only at q1 q4 q5 q6 q7 q8 q9 hhit
        refine ⟨_, [Event.beat (s.currentBeat + 1) s.totalBeats] ++ e, ?_, ?_,
          ⟨by rw [q4]; exact hT, by rw [q5]; exact htg,
            Or.inl ⟨by rw [q6]; exact hp, by rw [hhit, q9, hh], by rw [q9, ← hT]; omega,
              by rw [q7]; exact hi, by rw [q8]; exact hl, ?_, ?_⟩⟩⟩
        · simp [handleBeatCue, ho]
        · rw [q1, List.append_assoc]
        · rw [summariesOf_append, summariesOf_append, hsum, q2]
          simp [summariesOf]
        · rw [outcomesOf_append, outcomesOf_append, hout, q3]
          simp [outcomesOf]
    · have hkick : ¬ THRESHOLD < p.kick := by
        intro hgt
        have := hk.mp hgt
        simp only [cuesBeat, decide_eq_true_eq] at this
        exact hfire this.2
      have ho : openCue s p.now = some s := by
        simp only [openCue, if_neg hfire]
      obtain ⟨e, q1, q2, q3, q4, q5, q6, q7, q8, q9⟩ := tail_quiet s p.now p.kick false
      have hsil := tail_silent s p.now p.kick hkick
      refine ⟨_, e, ?_, q1,
        ⟨by rw [q4]; exact hT, by rw [q5]; exact htg,
          Or.inl ⟨by rw [q6]; exact hp, by rw [hsil, q9]; exact hh, by rw [q9]; exact hlt,
            by rw [q7]; exact hi, by rw [q8]; exact hl, ?_, ?_⟩⟩⟩
      · simp [handleBeatCue, ho]
      · rw [summariesOf_append, hsum, q2]; rfl
      · rw [outcomesOf_append, hout, q3]; rfl
  · exact ⟨s, [], loopBody_waiting s _ _ _ _ hw, by simp,
      ⟨hT, htg, Or.inr ⟨hw, by rw [List.append_nil]; exact hfin⟩⟩⟩

theorem struckOnCue_cons (s : State) (p : PassInput) (ps : List PassInput)
    (h : struckOnCue s (p :: ps) = true) :
    (THRESHOLD < p.kick ↔ cuesBeat s p.now = true) ∧ p.snare = false ∧
    ∀ s1, loopBody s p.now p.clock p.kick p.snare = some s1 → struckOnCue s1 ps = true := by
  simp only [struckOnCue, Bool.and_eq_true, decide_eq_true_eq, Bool.not_eq_true'] at h
  refine ⟨h.1.1, h.1.2, ?_⟩
  intro s1 hl
  have hloop : loop s [] p.now p.clock p.kick p.snare = some s1 := by
    simp [loop, drain, hl]
  rw [hloop] at h
  exact h.2

theorem runPasses_struck (T : Int) (tgt : ℚ) (i0 : Int) (l0 : RhythmLevel)
    (base : List Event) (h0 : 0 ≤ i0) (passes : List PassInput) :
    ∀ (s : State) (pre : List Event), StruckInv T tgt i0 l0 s pre → s.sent = base ++ pre →
      struckOnCue s passes = true →
      ∃ sf evs, runPasses s passes = some sf ∧ sf.sent = base ++ evs ∧
        StruckInv T tgt i0 l0 sf evs := by
  induction passes with
  | nil =>
    intro s pre hinv hs _
    exact ⟨s, pre, rfl, hs, hinv⟩
  | cons p ps ih =>
    intro s pre hinv hs hc
    obtain ⟨hk, hsn, hrest⟩ := struckOnCue_cons s p ps hc
    obtain ⟨s1, e1, hl, hs1, hinv1⟩ := struck_step T tgt i0 l0 s pre p h0 hinv hk hsn
    obtain ⟨sf, evs, hr, hsf, hinvf⟩ :=
      ih s1 (pre ++ e1) hinv1 (by rw [hs1, hs, List.append_assoc]) (hrest s1 hl)
    refine ⟨sf, evs, ?_, hsf, hinvf⟩
    simp [runPasses, loop, drain, hl, hr]

/-- C11, as stated, fails: in a session of 15 beats at 120 bpm with the kick
struck in each of the 15 passes that cue a beat, the scheduler ends the
session on cueing beat 15, before the strike of that pass is read: the end
summary reports 14 hits of 15 and the `float` accuracy 12233387/131072 (about
93.33), not 100; and with a target
accuracy of 100 the outcome is `retry` although the second variant, not the
last, is selected. -/
theorem struck_session_counterexample :
    startSession waltzReady 0 = some waltzStart ∧
    struckOnCue waltzStart cuePasses = true ∧
    (runPasses waltzStart cuePasses).map (fun sf => (sf.sessionState, beatsOf sf.sent)) =
      some (SessionState.WAITING_FOR_CONFIG, firstBeats 15 15) ∧
    (runPasses waltzStart cuePasses).map (fun sf => summariesOf sf.sent) =
      some [(14, 15, FloatVal.fin (12233387 / 131072))] ∧
    (12233387 / 131072 : ℚ) ≠ 100 ∧
    startSession { waltzReady with targetAccuracy := 100 } 0 = some strictStart ∧
    struckOnCue strictStart cuePasses = true ∧
    (runPasses strictStart cuePasses).map
        (fun sf => (outcomesOf sf.sent, sf.currentLevelIndex)) =
      some ([Event.retry], 1) := by
  refine ⟨rfl, by decide!, by decide!, by decide!, by norm_num, rfl, by decide!, by decide!⟩

/-- C11 amended: in a session begun by `startSession` with `totalBeats = T ≥ 1`
(catalog index in 0..2), driven by loop passes without inbound message in
which the kick reads above the threshold exactly in the passes that cue a
beat and the snare never reads high, once the scheduler has ended the session
the one end summary reports `T - 1` hits of `T` and as accuracy the quotient
`(T - 1) * 100 / T` rounded to a `float`, the strike on the last beat being
read after the session has ended; the outcome is `levelUp` with the selection moved to the next
variant when that accuracy reaches the target and the selected variant is
not the last one, and otherwise `retry` with the selection unchanged. -/
theorem struck_session (s0 s : State) (clock : Nat) (passes : List PassInput)
    (hs : startSession s0 clock = some s) (hT : 1 ≤ s.totalBeats)
    (h0 : 0 ≤ s0.currentLevelIndex) (h2 : s0.currentLevelIndex ≤ 2)
    (hc : struckOnCue s passes = true) :
    ∃ sf evs, runPasses s passes = some sf ∧ sf.sent = s.sent ++ evs ∧
      (sf.sessionState = SessionState.WAITING_FOR_CONFIG →
        summariesOf evs = [(s.totalBeats - 1, s.totalBeats,
          FloatVal.fin (floatQuotient ((s.totalBeats - 1) * 100) s.totalBeats))] ∧
        (s.targetAccuracy ≤ floatQuotient ((s.totalBeats - 1) * 100) s.totalBeats ∧
            s.currentLevelIndex ≠ 2 →
          outcomesOf evs = [Event.levelUp] ∧
          sf.currentLevelIndex = s.currentLevelIndex + 1 ∧
          levelAt (s.currentLevelIndex + 1) = some sf.selectedLevel) ∧
        (¬ (s.targetAccuracy ≤ floatQuotient ((s.totalBeats - 1) * 100) s.totalBeats ∧
            s.currentLevelIndex ≠ 2) →
          outcomesOf evs = [Event.retry] ∧
          sf.currentLevelIndex = s.currentLevelIndex ∧
          sf.selectedLevel = s.selectedLevel)) := by
  have hb : s0.bpm ≠ 0 := by
    intro hz
    simp [startSession, hz] at hs
  rw [startSession_eq s0 clock hb, Option.some.injEq] at hs
  have hidx : s.currentLevelIndex = s0.currentLevelIndex := by rw [← hs]
  have hinv : StruckInv s.totalBeats s.targetAccuracy s.currentLevelIndex s.selectedLevel s [] := by
    refine ⟨rfl, rfl, Or.inl ⟨by rw [← hs], by rw [← hs], ?_, rfl, rfl, rfl, rfl⟩⟩
    have : s.currentBeat = 0 := by rw [← hs]
    omega
  obtain ⟨sf, evs, hr, hsent, _, _, hcase⟩ :=
    runPasses_struck s.totalBeats s.targetAccuracy s.currentLevelIndex s.selectedLevel s.sent
      (by rw [hidx]; exact h0) passes s [] hinv (by simp) hc
  refine ⟨sf, evs, hr, hsent, ?_⟩
  intro hw
  rcases hcase with ⟨hp, _⟩ | ⟨_, hsum, hup, hre⟩
  · rw [hp] at hw
    exact absurd hw (by decide)
  · have hd := div_pos_eq ((s.totalBeats - 1) * 100) s.totalBeats (by omega)
    rw [hd] at hsum hup hre
    simp only [FloatVal.ge, decide_eq_true_eq] at hup hre
    refine ⟨hsum, ?_, ?_⟩
    · rintro ⟨hge, hne⟩
      exact hup ⟨hge, by omega⟩
    · intro hn
      apply hre
      rintro ⟨hge, hlt⟩
      exact hn ⟨hge, by omega⟩

/-- C11 amended, on the session of 15 beats with a strike on every cue:
14 hits of 15 are reported; and with the target at the `float` 93.333335,
which the exact quotient 280/3 does not reach but the rounded one equals, the
outcome is `levelUp`. -/
theorem struck_session_witness :
    (∃ sf evs, runPasses waltzStart cuePasses = some sf ∧
      sf.sent = waltzStart.sent ++ evs ∧
      (sf.sessionState = SessionState.WAITING_FOR_CONFIG →
        summariesOf evs = [(14, 15, FloatVal.fin (floatQuotient ((15 - 1) * 100) 15))])) ∧
    floatQuotient ((15 - 1) * 100) 15 = 12233387 / 131072 ∧
    ((((15 - 1) * 100 : Int) : ℚ) / ((15 : Int) : ℚ) < 12233387 / 131072) ∧
    struckOnCue edgeStart cuePasses = true ∧
    (runPasses edgeStart cuePasses).map
        (fun sf => (sf.sessionState, outcomesOf sf.sent, sf.currentLevelIndex)) =
      some (SessionState.WAITING_FOR_CONFIG, [Event.levelUp], 2) := by
  refine ⟨?_, by decide!, by decide!, by decide!, by decide!⟩
  obtain ⟨sf, evs, hr, hsent, h⟩ :=
    struck_session waltzReady waltzStart 0 cuePasses rfl (by decide) (by decide) (by decide)
      (by decide!)
  exact ⟨sf, evs, hr, hsent, fun hw => (h hw).1⟩

end DrumTrainer
